import Mathlib

/-!
Verification development for the Draw.io → Commbox bot-script converter
(Express backend embedded in `src/frontend/src/App.jsx`, lines 435-943).

The conversion pipeline is shallowly embedded: pure JS functions become Lean
functions, the mutable `Map`/object graph of `buildHierarchy` becomes explicit
association-list state passing, and the recursive `processNode` traversal is
given an explicit fuel parameter (the JS recursion is unbounded; fuel
sufficiency is proved separately).  External library behaviour that the
repository only calls (pako raw-deflate, Node's lenient base64 decoder,
`encodeURIComponent`/`decodeURIComponent`, UTF-8 text decoding) is modelled
from the spec where noted.
-/

/-- JS `String.prototype.toLowerCase`, modelled on the ASCII range
(`Char.toLower`); the keywords the converter matches are ASCII or Hebrew,
which this mapping covers. -/
def lowerStr (s : String) : String :=
  String.mk (s.data.map Char.toLower)

/-- Whether `pat` occurs at the head of `l` (helper for substring search). -/
def matchesAt : List Char → List Char → Bool
  | [], _ => true
  | _ :: _, [] => false
  | p :: ps, h :: hs => p == h && matchesAt ps hs

/-- Substring occurrence on char lists. -/
def hasSub (pat : List Char) : List Char → Bool
  | [] => pat.isEmpty
  | c :: t => matchesAt pat (c :: t) || hasSub pat t

/-- JS `String.prototype.includes`. -/
def strIncludes (hay pat : String) : Bool :=
  hasSub pat.data hay.data

/-- JS `String.prototype.length` counts UTF-16 code units: astral-plane
characters count twice. -/
def utf16Length (s : String) : Nat :=
  s.data.foldl (fun n c => n + if c.toNat ≥ 0x10000 then 2 else 1) 0

/-! ## Data model (graph-model cells, extracted nodes/edges, hierarchy) -/

/-- One `mxCell` of the decompressed graph model, as xml2js presents it to
`extractNodes`/`extractConnections`: the `$` attribute bag (each attribute
possibly absent) plus the geometry attribute bag. -/
structure MxCell where
  id : Option String
  value : Option String
  style : Option String
  parent : Option String
  vertex : Option String
  edge : Option String
  source : Option String
  target : Option String
  geometry : List (String × String)
deriving DecidableEq, Repr

/-- The node shape pushed by `extractNodes` (App.jsx:561-567). -/
structure DiagramNode where
  id : Option String
  value : String
  style : String
  parent : Option String
  geometry : List (String × String)
deriving DecidableEq, Repr

/-- The edge shape pushed by `extractConnections` (App.jsx:587-592). -/
structure Connection where
  id : Option String
  source : Option String
  target : Option String
  value : String
deriving DecidableEq, Repr

/-- A node as stored in `buildHierarchy`'s `nodeMap`: the spread of a
`DiagramNode` plus the mutable `children` list (App.jsx:645-648). -/
structure HierarchyNode where
  id : Option String
  value : String
  style : String
  parent : Option String
  geometry : List (String × String)
  children : List (Option String)
deriving DecidableEq, Repr

/-- `extractNodes` (App.jsx:552-575): a cell is kept when `attrs.vertex ===
'1'` or `attrs.value` is truthy (a non-empty string); missing attributes
default to the empty string, the containment `parent` attribute is kept
as-is. -/
def extractNodes (cells : List MxCell) : List DiagramNode :=
  cells.filterMap fun cell =>
    if cell.vertex == some "1" || cell.value.getD "" != "" then
      some { id := cell.id, value := cell.value.getD "", style := cell.style.getD "",
             parent := cell.parent, geometry := cell.geometry }
    else none

/-- `extractConnections` (App.jsx:578-600): a cell is an edge when
`attrs.edge === '1'`. -/
def extractConnections (cells : List MxCell) : List Connection :=
  cells.filterMap fun cell =>
    if cell.edge == some "1" then
      some { id := cell.id, source := cell.source, target := cell.target,
             value := cell.value.getD "" }
    else none

/-! ## Node classifier -/

/-- `detectNodeType` (App.jsx:603-636): lowercase the label and style, then
run the keyword checks in source order; label keywords first, then shape
hints, default `"message"`. -/
def detectNodeType (node : HierarchyNode) : String :=
  let value := lowerStr node.value
  let style := lowerStr node.style
  if strIncludes value "מעבר לנציג" || strIncludes value "transfer" || strIncludes value "agent" then
    "transfer"
  else if strIncludes value "לא ידוע" || strIncludes value "unknown" then
    "unknown"
  else if strIncludes value "שגיאה" || strIncludes value "error" then
    "error"
  else if strIncludes value "סיום" || strIncludes value "סגירה" || strIncludes value "end" || strIncludes value "close" then
    "end"
  else if strIncludes value "התחלה" || strIncludes value "start" then
    "start"
  else if strIncludes value "קלט" || strIncludes value "input" then
    "input"
  else if strIncludes style "ellipse" || strIncludes style "circle" then
    "start"
  else if strIncludes style "rhombus" || strIncludes style "diamond" then
    "decision"
  else
    "message"

/-- Label keyword rules of spec §4.3, in the spec's precedence order
(rules 1-6). -/
def labelKeywordRules : List (List String × String) :=
  [(["מעבר לנציג", "transfer", "agent"], "transfer"),
   (["לא ידוע", "unknown"], "unknown"),
   (["שגיאה", "error"], "error"),
   (["סיום", "סגירה", "end", "close"], "end"),
   (["התחלה", "start"], "start"),
   (["קלט", "input"], "input")]

/-- Style keyword rules of spec §4.3 (rules 7-8). -/
def styleKeywordRules : List (List String × String) :=
  [(["ellipse", "circle"], "start"),
   (["rhombus", "diamond"], "decision")]

/-- First rule whose keyword list matches, spec §4.3's "first match wins". -/
def firstMatch (text : String) : List (List String × String) → Option String
  | [] => none
  | (kws, role) :: rest =>
    if kws.any (fun kw => strIncludes text kw) then some role else firstMatch text rest

/-- Classifier as the spec §4.3 words it: case-insensitive first-match over
the ordered label rules, then the ordered style rules, else Message. -/
def specClassify (label style : String) : String :=
  match firstMatch (lowerStr label) labelKeywordRules with
  | some role => role
  | none => (firstMatch (lowerStr style) styleKeywordRules).getD "message"

/-! ## Hierarchy builder -/

/-- The `nodeMap` of `buildHierarchy`: an insertion-ordered association list
modelling a JS `Map` keyed by the (possibly absent) node id. -/
abbrev NodeMap := List (Option String × HierarchyNode)

/-- JS `Map.prototype.set`: update in place if the key exists (keeping its
position), else append. -/
def setEntry (k : Option String) (v : HierarchyNode) : NodeMap → NodeMap
  | [] => [(k, v)]
  | (k', v') :: rest => if k' = k then (k, v) :: rest else (k', v') :: setEntry k v rest

/-- JS `Map.prototype.get`. -/
def lookupEntry (k : Option String) : NodeMap → Option HierarchyNode
  | [] => none
  | (k', v) :: rest => if k' = k then some v else lookupEntry k rest

/-- One iteration of the connection loop in `buildHierarchy`
(App.jsx:652-660): if both endpoints resolve, push the target's id onto the
source's children and overwrite the target's parent with the source's id. -/
def applyConnection (m : NodeMap) (conn : Connection) : NodeMap :=
  match lookupEntry conn.source m, lookupEntry conn.target m with
  | some sourceNode, some targetNode =>
    let m1 := setEntry conn.source
      { sourceNode with children := sourceNode.children ++ [targetNode.id] } m
    match lookupEntry conn.target m1 with
    | some t => setEntry conn.target { t with parent := sourceNode.id } m1
    | none => m1
  | _, _ => m

/-- The root test of `buildHierarchy` (App.jsx:665): JS
`!parent || parent === '1' || parent === '0'`, where `!parent` is true for an
absent or empty-string parent. -/
def isRootParent : Option String → Bool
  | none => true
  | some s => s == "" || s == "1" || s == "0"

/-- `buildHierarchy` (App.jsx:639-671): build the id-keyed map (children
initialised empty), apply every connection, then collect as roots (in the
original node order) the nodes whose final parent passes the root test. -/
def buildHierarchy (nodes : List DiagramNode) (connections : List Connection) :
    NodeMap × List HierarchyNode :=
  let initialMap : NodeMap := nodes.foldl (fun m node =>
    setEntry node.id
      { id := node.id, value := node.value, style := node.style,
        parent := node.parent, geometry := node.geometry, children := [] } m) []
  let nodeMap := connections.foldl applyConnection initialMap
  let hierarchy := nodes.foldl (fun acc node =>
    match lookupEntry node.id nodeMap with
    | some hierarchyNode =>
      if isRootParent hierarchyNode.parent then acc ++ [hierarchyNode] else acc
    | none => acc) []
  (nodeMap, hierarchy)

/-! ## Script records -/

/-- The single element of an Input record's `d_e` array (App.jsx:707-719). -/
structure DataElement where
  uniqueName : String
  name : String
  labelDescription : String
  type : String
  key : Bool
  isVisible : Bool
  isMandatory : Bool
  askOnlyOnce : Bool
  isSystemField : Bool
  fieldType : String
  validation : String
deriving DecidableEq, Repr

/-- The global configuration record, element 0 of the script array
(App.jsx:733-745). -/
structure ConfigRecord where
  seedId : Nat
  endNodeId : String
  genericDelayJumpTime : String
  genericDelayJumpNode : String
  genericRedisplayTime : String
  genericRedisplayMessage : String
  dataContextExpirationTime : String
  engineVersion : Nat
  allowUsingAI : Bool
  importMismatches : List String
  assistantId : String
deriving DecidableEq, Repr

/-- A non-config script record.  Optional fields model JS object fields that
are present only on some records; `attachments` records whether the (always
empty) `attachments` object is present.  The JS `end` key is `endVal`. -/
structure NodeRecord where
  id : String
  text : String
  parent : String
  buttonDisplayMode : Option String
  rI : String
  addChannelStateMessage : Bool
  attachments : Bool
  bodyHtml : Option String
  step : Option String
  unknown : Option String
  error : Option Bool
  endVal : Option String
  d_e : Option (List DataElement)
deriving DecidableEq, Repr

/-- One element of the heterogeneous JSON script array. -/
inductive ScriptRecord where
  | config : ConfigRecord → ScriptRecord
  | node : NodeRecord → ScriptRecord
deriving DecidableEq, Repr

/-- The `id` field of a script record, if present. -/
def ScriptRecord.idF : ScriptRecord → Option String
  | .config _ => none
  | .node n => some n.id

/-- The `parent` field of a script record, if present. -/
def ScriptRecord.parentF : ScriptRecord → Option String
  | .config _ => none
  | .node n => some n.parent

/-- `convertToCommboxNode` (App.jsx:674-724): the base record plus the
role-specific field chosen by `detectNodeType`. -/
def convertToCommboxNode (node : HierarchyNode) (index : Nat) (parentId : String) :
    NodeRecord :=
  let nodeType := detectNodeType node
  let base : NodeRecord :=
    { id := "n_" ++ toString index
      text := if node.value = "" then "Node " ++ toString index else node.value
      parent := parentId
      buttonDisplayMode := none
      rI := "2"
      addChannelStateMessage := false
      attachments := true
      bodyHtml := none, step := none, unknown := none, error := none,
      endVal := none, d_e := none }
  if nodeType = "message" then
    if node.value != "" && utf16Length node.value > 20 then
      { base with bodyHtml := some node.value }
    else base
  else if nodeType = "transfer" then { base with step := some "agent_node" }
  else if nodeType = "unknown" then { base with unknown := some "1" }
  else if nodeType = "error" then { base with error := some true }
  else if nodeType = "end" then { base with endVal := some "2" }
  else if nodeType = "input" then
    { base with d_e := some [{ uniqueName := "input_" ++ toString index
                               name := if node.value = "" then "הזן קלט" else node.value
                               labelDescription := ""
                               type := "string"
                               key := false
                               isVisible := false
                               isMandatory := true
                               askOnlyOnce := false
                               isSystemField := false
                               fieldType := "1"
                               validation := "" }] }
  else base

/-- The configuration record literal (App.jsx:733-745). -/
def configRecord : ScriptRecord :=
  .config { seedId := 44, endNodeId := "", genericDelayJumpTime := "",
            genericDelayJumpNode := "", genericRedisplayTime := "",
            genericRedisplayMessage := "", dataContextExpirationTime := "",
            engineVersion := 0, allowUsingAI := false, importMismatches := [],
            assistantId := "" }

/-- The synthetic root record (App.jsx:749-756). -/
def rootRecord : ScriptRecord :=
  .node { id := "node_0", text := "התחלה", parent := "#",
          buttonDisplayMode := none, rI := "2", addChannelStateMessage := false,
          attachments := true, bodyHtml := none, step := none, unknown := none,
          error := none, endVal := none, d_e := none }

/-- The fixed grouping record (App.jsx:786-794). -/
def groupingRecord : ScriptRecord :=
  .node { id := "n_3", text := "תהליכים קבועים", parent := "node_0",
          buttonDisplayMode := some "1", rI := "2", addChannelStateMessage := false,
          attachments := true, bodyHtml := none, step := none, unknown := none,
          error := none, endVal := none, d_e := none }

/-- The fixed standing transfer record (App.jsx:796-803). -/
def standingTransferRecord : ScriptRecord :=
  .node { id := "n_10", text := "מעבר לנציג", parent := "n_3",
          buttonDisplayMode := none, rI := "2", addChannelStateMessage := false,
          attachments := true, bodyHtml := none, step := none, unknown := none,
          error := none, endVal := none, d_e := none }

/-- The fixed standing error record (App.jsx:805-812); note it has no
`attachments` field. -/
def standingErrorRecord : ScriptRecord :=
  .node { id := "n_11", text := "Error", parent := "n_3",
          buttonDisplayMode := none, rI := "2", addChannelStateMessage := false,
          attachments := false, bodyHtml := none, step := none, unknown := none,
          error := some true, endVal := none, d_e := none }

/-- The fixed standing unknown record (App.jsx:814-821); note it has no
`attachments` field. -/
def standingUnknownRecord : ScriptRecord :=
  .node { id := "n_12", text := "לא ידוע", parent := "n_3",
          buttonDisplayMode := none, rI := "2", addChannelStateMessage := false,
          attachments := false, bodyHtml := none, step := none, unknown := some "1",
          error := none, endVal := none, d_e := none }

/-- The generator state threaded through `processNode`: the script array, the
sequential `nodeIndex` counter (starting at 2), and the `processedNodes`
visited set. -/
structure GenState where
  scriptArray : List ScriptRecord
  nodeIndex : Nat
  processedNodes : List (Option String)
deriving DecidableEq, Repr

/-- `processNode` (App.jsx:762-778) with an explicit fuel bound on recursion
depth (the JS recursion is unbounded; `processNode_fuel_stable` shows the
fuel used by `scriptArrayOf` suffices): skip already-processed nodes,
otherwise emit the converted record and recurse into the children, each child
parented to the freshly emitted record's id. -/
def processNode (nodeMap : NodeMap) : Nat → GenState → HierarchyNode → String → GenState
  | 0, st, _, _ => st
  | fuel + 1, st, node, parentId =>
    if node.id ∈ st.processedNodes then st
    else
      let commboxNode := convertToCommboxNode node st.nodeIndex parentId
      let st1 : GenState :=
        ⟨st.scriptArray ++ [ScriptRecord.node commboxNode], st.nodeIndex + 1,
         node.id :: st.processedNodes⟩
      node.children.foldl (fun acc childId =>
        match lookupEntry childId nodeMap with
        | some childNode => processNode nodeMap fuel acc childNode commboxNode.id
        | none => acc) st1

/-- The generator state after `generateCommboxXML` has pushed the config and
root records and run the depth-first emission over all hierarchy roots
(App.jsx:727-783), each root called with parent `"node_0"`. -/
def emittedState (fuel : Nat) (nodes : List DiagramNode)
    (connections : List Connection) : GenState :=
  let built := buildHierarchy nodes connections
  built.2.foldl (fun st root => processNode built.1 fuel st root "node_0")
    ⟨[configRecord, rootRecord], 2, []⟩

/-- The script array built by `generateCommboxXML` (App.jsx:727-822), with
the traversal fuel exposed: config record, synthetic root, the depth-first
emission, then the four fixed records. -/
def scriptArrayOfFuel (fuel : Nat) (nodes : List DiagramNode)
    (connections : List Connection) : List ScriptRecord :=
  (emittedState fuel nodes connections).scriptArray ++
    [groupingRecord, standingTransferRecord, standingErrorRecord, standingUnknownRecord]

/-- The script array of `generateCommboxXML`, at the fuel `nodes.length + 1`
that `processNode_fuel_stable` proves sufficient. -/
def scriptArrayOf (nodes : List DiagramNode) (connections : List Connection) :
    List ScriptRecord :=
  scriptArrayOfFuel (nodes.length + 1) nodes connections

/-- Records appended by the traversal are conversions of diagram nodes. -/
def isConvertRecord (r : ScriptRecord) : Prop :=
  ∃ n i p, r = ScriptRecord.node (convertToCommboxNode n i p)

/-- Ids accumulated (most recent first) after scanning `l`, starting from
`seen`. -/
def seenAfter (seen : List String) (l : List ScriptRecord) : List String :=
  l.foldl (fun s r => match r.idF with | some i => i :: s | none => s) seen

/-- Left-to-right check that every record's `parent` field (when present) is
the root sentinel `"#"` or the id of an earlier record in the list. -/
def parentsPrecedeAux : List String → List ScriptRecord → Bool
  | _, [] => true
  | seen, r :: rest =>
    (match r.parentF with
     | none => true
     | some p => p == "#" || decide (p ∈ seen)) &&
    parentsPrecedeAux (match r.idF with | some i => i :: seen | none => seen) rest

/-- Every record's `parent` field references the root sentinel or the id of
an earlier record. -/
def parentsPrecede (l : List ScriptRecord) : Bool := parentsPrecedeAux [] l

/-- Invariant of the generator state: the counter tracks the array length,
the array holds the two boilerplate records plus one record per processed
node, processed ids are distinct, and each record beyond position 1 carries
the sequential id of its position. -/
def IdxInv (st : GenState) : Prop :=
  st.nodeIndex = st.scriptArray.length ∧ 2 ≤ st.scriptArray.length ∧
    st.scriptArray.length = 2 + st.processedNodes.length ∧
    st.processedNodes.Nodup ∧
    ∀ k (hk : k < st.scriptArray.length), 2 ≤ k →
      (st.scriptArray.get ⟨k, hk⟩).idF = some ("n_" ++ toString k)

/-- Two distinct positions of the record list carry the same id `s`. -/
def dupIdAt (A : List ScriptRecord) (i j : Nat) (s : String) : Prop :=
  ∃ hi : i < A.length, ∃ hj : j < A.length, i ≠ j ∧
    (A.get ⟨i, hi⟩).idF = some s ∧ (A.get ⟨j, hj⟩).idF = some s

/-- A node whose label holds an error keyword while its style is a
rhombus. -/
def errorRhombusNode : HierarchyNode :=
  { id := some "x", value := "Payment ERROR", style := "rhombus;whiteSpace=wrap;html=1;",
    parent := none, geometry := [], children := [] }

/-- Eleven distinct root nodes, used to exercise the id collisions at a
concrete input. -/
def elevenNodes : List DiagramNode :=
  (List.range 11).map fun k =>
    { id := some ("a" ++ toString k), value := "", style := "", parent := none,
      geometry := [] }

/-- The keys of a node map. -/
def keysOf (m : NodeMap) : List (Option String) := m.map Prod.fst

/-- Map coherence: every stored node's `id` field equals its key (holds for
every map `buildHierarchy` constructs). -/
def Coh (m : NodeMap) : Prop := ∀ p ∈ m, (p.2).id = p.1

/-- Number of map keys not yet visited. -/
def unvisitedCount (m : NodeMap) (visited : List (Option String)) : Nat :=
  ((keysOf m).filter (fun k => decide (k ∉ visited))).length

/-- The initial node map of `buildHierarchy`. -/
def initialMapOf (nodes : List DiagramNode) : NodeMap :=
  nodes.foldl (fun m node =>
    setEntry node.id
      { id := node.id, value := node.value, style := node.style,
        parent := node.parent, geometry := node.geometry, children := [] } m) []

/-- A three-node diagram whose edges close a cycle (`R→A`, `A→B`, `B→A`). -/
def cycleNodes : List DiagramNode :=
  [{ id := some "R", value := "R", style := "", parent := none, geometry := [] },
   { id := some "A", value := "A", style := "", parent := none, geometry := [] },
   { id := some "B", value := "B", style := "", parent := none, geometry := [] }]

/-- The cyclic edge list `R→A`, `A→B`, `B→A`. -/
def cycleConnections : List Connection :=
  [{ id := some "e1", source := some "R", target := some "A", value := "" },
   { id := some "e2", source := some "A", target := some "B", value := "" },
   { id := some "e3", source := some "B", target := some "A", value := "" }]

/-- A connection is an inbound resolving edge for id `x` when both endpoints
are known node ids and the edge targets `x`. -/
def inboundResolving (nodes : List DiagramNode) (c : Connection) (x : Option String) : Prop :=
  c.source ∈ keysOf (initialMapOf nodes) ∧ c.target ∈ keysOf (initialMapOf nodes) ∧
    c.target = x

/-- The record initially stored for a diagram node. -/
def initialRecordOf (node : DiagramNode) : HierarchyNode :=
  { id := node.id, value := node.value, style := node.style,
    parent := node.parent, geometry := node.geometry, children := [] }

/-- A diagram node whose containment attribute names an ordinary cell
(`"5"`), with no edges anywhere. -/
def strayNode : DiagramNode :=
  { id := some "a", value := "hello", style := "", parent := some "5", geometry := [] }

/-- A diagram node whose containment attribute is the default layer `"1"`. -/
def layerRootNode : DiagramNode :=
  { id := some "b", value := "hi", style := "", parent := some "1", geometry := [] }

/-- JS `String.prototype.trim` whitespace, modelled on the ASCII range. -/
def isJsWhitespace (c : Char) : Bool :=
  c == ' ' || c == '\t' || c == '\n' || c == '\r' ||
    c == Char.ofNat 11 || c == Char.ofNat 12

/-- JS `String.prototype.trim`. -/
def trimStr (s : String) : String :=
  String.mk ((((s.data.dropWhile isJsWhitespace).reverse.dropWhile
    isJsWhitespace)).reverse)

/-- The standard base64 alphabet. -/
def base64Alphabet : List Char :=
  "ABCDEFGHIJKLMNOPQRSTUVWXYZabcdefghijklmnopqrstuvwxyz0123456789+/".data

/-- Membership in the base64 alphabet. -/
def isB64Char (c : Char) : Bool := base64Alphabet.contains c

/-- Sextet value of an alphabet character. -/
def b64Val (c : Char) : Nat := base64Alphabet.indexOf c

/-- Alphabet character of a sextet. -/
def b64Char (n : Nat) : Char := base64Alphabet.getD n 'A'

/-- Modelled from the spec: Node's base64 decoder consumes the filtered
character stream in groups of four sextets (three bytes), with lenient
handling of a trailing group of two or three sextets. -/
def base64DecodeGroups : List Char → List Nat
  | a :: b :: c :: d :: rest =>
    [b64Val a * 4 + b64Val b / 16,
     (b64Val b % 16) * 16 + b64Val c / 4,
     (b64Val c % 4) * 64 + b64Val d] ++ base64DecodeGroups rest
  | [a, b, c] => [b64Val a * 4 + b64Val b / 16, (b64Val b % 16) * 16 + b64Val c / 4]
  | [a, b] => [b64Val a * 4 + b64Val b / 16]
  | _ => []

/-- Modelled from the spec: Node's `Buffer.from(s, 'base64')` is lenient —
characters outside the alphabet (whitespace, padding, garbage) are skipped,
and decoding never fails. -/
def base64DecodeLenient (l : List Char) : List Nat :=
  base64DecodeGroups (l.filter isB64Char)

/-- Standard base64 encoding with padding (the encoding btoa applies to the
deflated bytes in the matching compression procedure). -/
def base64Encode : List Nat → List Char
  | b0 :: b1 :: b2 :: rest =>
    [b64Char (b0 / 4), b64Char ((b0 % 4) * 16 + b1 / 16),
     b64Char ((b1 % 16) * 4 + b2 / 64), b64Char (b2 % 64)] ++ base64Encode rest
  | [b0, b1] => [b64Char (b0 / 4), b64Char ((b0 % 4) * 16 + b1 / 16),
      b64Char ((b1 % 16) * 4), '=']
  | [b0] => [b64Char (b0 / 4), b64Char ((b0 % 4) * 16), '=', '=']
  | [] => []

/-- Modelled from the spec: raw (headerless) DEFLATE compression at the
container level, emitting stored (uncompressed) blocks — `BFINAL`/`BTYPE`
header byte, little-endian `LEN` and its one's complement `NLEN`, then the
literal bytes; blocks hold at most 65535 bytes. -/
def deflateRawGo : Nat → List Nat → List Nat
  | 0, _ => []
  | fuel + 1, l =>
    if l.length ≤ 65535 then
      1 :: l.length % 256 :: l.length / 256 ::
        (65535 - l.length) % 256 :: (65535 - l.length) / 256 :: l
    else
      0 :: 255 :: 255 :: 0 :: 0 :: (l.take 65535 ++ deflateRawGo fuel (l.drop 65535))

/-- The deflate entry point; the block-count bound `l.length + 1` always
suffices. -/
def deflateRaw (l : List Nat) : List Nat := deflateRawGo (l.length + 1) l

/-- Modelled from the spec: `pako.inflateRaw` on the raw-deflate container,
restricted to stored (uncompressed) blocks; compressed block types and
malformed containers are rejected with an error. -/
def inflateRawGo : Nat → List Nat → Except String (List Nat)
  | 0, _ => Except.error "inflate: fuel exhausted"
  | _ + 1, [] => Except.error "inflate: unexpected end of stream"
  | fuel + 1, b :: rest =>
    if b / 2 % 4 ≠ 0 then Except.error "inflate: unsupported block type"
    else match rest with
    | l0 :: l1 :: n0 :: n1 :: rest2 =>
      let len := l0 + 256 * l1
      let nlen := n0 + 256 * n1
      if len + nlen ≠ 65535 then Except.error "inflate: invalid stored block lengths"
      else if rest2.length < len then Except.error "inflate: unexpected end of stream"
      else if b % 2 = 1 then Except.ok (rest2.take len)
      else match inflateRawGo fuel (rest2.drop len) with
        | Except.ok out => Except.ok (rest2.take len ++ out)
        | Except.error e => Except.error e
    | _ => Except.error "inflate: unexpected end of stream"

/-- The inflate entry point; the fuel bound `l.length + 1` always suffices
because every block consumes at least five bytes. -/
def inflateRaw (l : List Nat) : Except String (List Nat) :=
  inflateRawGo (l.length + 1) l

/-- The UTF-8 encoding of one scalar value. -/
def utf8EncodeChar (c : Char) : List Nat :=
  let v := c.toNat
  if v < 0x80 then [v]
  else if v < 0x800 then [0xC0 + v / 64, 0x80 + v % 64]
  else if v < 0x10000 then [0xE0 + v / 4096, 0x80 + v / 64 % 64, 0x80 + v % 64]
  else [0xF0 + v / 262144, 0x80 + v / 4096 % 64, 0x80 + v / 64 % 64, 0x80 + v % 64]

/-- UTF-8 encoding of a character list. -/
def utf8Encode (l : List Char) : List Nat :=
  l.foldr (fun c acc => utf8EncodeChar c ++ acc) []

/-- The replacement character U+FFFD. -/
def replChar : Char := Char.ofNat 0xFFFD

/-- A UTF-8 continuation byte. -/
def isCont (b : Nat) : Bool := decide (0x80 ≤ b) && decide (b < 0xC0)

/-- Modelled from the spec: the `{ to: 'string' }` post-processing of
`pako.inflateRaw` decodes the inflated bytes as UTF-8, substituting U+FFFD
for invalid sequences rather than failing. -/
def utf8Step (recur : List Nat → List Char) (b : Nat) (rest : List Nat) :
    List Char :=
  if b < 0x80 then Char.ofNat b :: recur rest
  else if b < 0xC0 then replChar :: recur rest
  else if b < 0xE0 then
    match rest with
    | b1 :: rest2 =>
      if isCont b1 then
        Char.ofNat ((b - 0xC0) * 64 + (b1 - 0x80)) :: recur rest2
      else replChar :: recur rest2
    | [] => [replChar]
  else if b < 0xF0 then
    match rest with
    | b1 :: b2 :: rest2 =>
      if isCont b1 && isCont b2 then
        Char.ofNat ((b - 0xE0) * 4096 + (b1 - 0x80) * 64 + (b2 - 0x80)) ::
          recur rest2
      else replChar :: recur rest2
    | [_] => [replChar]
    | [] => [replChar]
  else
    match rest with
    | b1 :: b2 :: b3 :: rest2 =>
      if decide (b < 0xF8) && isCont b1 && isCont b2 && isCont b3 then
        Char.ofNat ((b - 0xF0) * 262144 + (b1 - 0x80) * 4096 + (b2 - 0x80) * 64 +
          (b3 - 0x80)) :: recur rest2
      else replChar :: recur rest2
    | [_, _] => [replChar]
    | [_] => [replChar]
    | [] => [replChar]

/-- Fuel-driven driver for the lossy UTF-8 decoder; every step consumes at
least one byte, so `l.length` fuel always suffices. -/
def utf8DecodeLossyGo : Nat → List Nat → List Char
  | _, [] => []
  | 0, _ :: _ => []
  | fuel + 1, b :: rest => utf8Step (utf8DecodeLossyGo fuel) b rest

def utf8DecodeLossy (l : List Nat) : List Char := utf8DecodeLossyGo l.length l

/-- The characters `encodeURIComponent` leaves unescaped. -/
def isUnreservedURI (c : Char) : Bool :=
  ('A' ≤ c && c ≤ 'Z') || ('a' ≤ c && c ≤ 'z') || ('0' ≤ c && c ≤ '9') ||
    c == '-' || c == '_' || c == '.' || c == '!' || c == '~' || c == '*' ||
    c == Char.ofNat 39 || c == '(' || c == ')'

/-- Upper-case hex digit. -/
def hexDigitUpper (n : Nat) : Char := "0123456789ABCDEF".data.getD n '0'

/-- A percent escape `%HH` of one byte. -/
def percentByte (b : Nat) : List Char :=
  ['%', hexDigitUpper (b / 16), hexDigitUpper (b % 16)]

/-- Modelled from the spec: JS `encodeURIComponent` — unreserved characters
pass through, every other character is written as the percent escapes of its
UTF-8 bytes. -/
def encodeURIComponent (l : List Char) : List Char :=
  l.foldr (fun c acc =>
    (if isUnreservedURI c then [c]
     else (utf8EncodeChar c).foldr (fun b a => percentByte b ++ a) []) ++ acc) []

/-- Hexadecimal digit value (both cases accepted). -/
def hexVal (c : Char) : Option Nat :=
  if '0' ≤ c && c ≤ '9' then some (c.toNat - 48)
  else if 'A' ≤ c && c ≤ 'F' then some (c.toNat - 55)
  else if 'a' ≤ c && c ≤ 'f' then some (c.toNat - 87)
  else none

/-- Modelled from the spec: JS `decodeURIComponent` — literal characters
pass through; a `%` must begin a complete, shortest-form UTF-8 escape
sequence (`URIError`, modelled as `none`, otherwise). -/
def uriStep (recur : List Char → Option (List Char)) (c : Char)
    (rest : List Char) : Option (List Char) :=
    if c = '%' then
    match rest with
    | h1 :: h2 :: rest2 =>
      match hexVal h1, hexVal h2 with
      | some v1, some v2 =>
        let b := v1 * 16 + v2
        if b < 0x80 then (recur rest2).map (Char.ofNat b :: ·)
        else if b < 0xC0 then none
        else if b < 0xE0 then
          match rest2 with
          | p1 :: g1 :: g2 :: rest3 =>
            if p1 = '%' then
              match hexVal g1, hexVal g2 with
              | some w1, some w2 =>
                let b1 := w1 * 16 + w2
                let v := (b - 0xC0) * 64 + (b1 - 0x80)
                if isCont b1 && decide (0x80 ≤ v) then
                  (recur rest3).map (Char.ofNat v :: ·)
                else none
              | _, _ => none
            else none
          | _ => none
        else if b < 0xF0 then
          match rest2 with
          | p1 :: g1 :: g2 :: p2 :: g3 :: g4 :: rest3 =>
            if p1 = '%' ∧ p2 = '%' then
              match hexVal g1, hexVal g2, hexVal g3, hexVal g4 with
              | some w1, some w2, some w3, some w4 =>
                let b1 := w1 * 16 + w2
                let b2 := w3 * 16 + w4
                let v := (b - 0xE0) * 4096 + (b1 - 0x80) * 64 + (b2 - 0x80)
                if isCont b1 && isCont b2 && decide (0x800 ≤ v) &&
                    !(decide (0xD800 ≤ v) && decide (v < 0xE000)) then
                  (recur rest3).map (Char.ofNat v :: ·)
                else none
              | _, _, _, _ => none
            else none
          | _ => none
        else if b < 0xF8 then
          match rest2 with
          | p1 :: g1 :: g2 :: p2 :: g3 :: g4 :: p3 :: g5 :: g6 :: rest3 =>
            if p1 = '%' ∧ p2 = '%' ∧ p3 = '%' then
              match hexVal g1, hexVal g2, hexVal g3, hexVal g4, hexVal g5, hexVal g6 with
              | some w1, some w2, some w3, some w4, some w5, some w6 =>
                let b1 := w1 * 16 + w2
                let b2 := w3 * 16 + w4
                let b3 := w5 * 16 + w6
                let v := (b - 0xF0) * 262144 + (b1 - 0x80) * 4096 + (b2 - 0x80) * 64 +
                  (b3 - 0x80)
                if isCont b1 && isCont b2 && isCont b3 && decide (0x10000 ≤ v) &&
                    decide (v < 0x110000) then
                  (recur rest3).map (Char.ofNat v :: ·)
                else none
              | _, _, _, _, _, _ => none
            else none
          | _ => none
        else none
      | _, _ => none
    | _ => none
    else (recur rest).map (c :: ·)

/-- Fuel-driven driver for `decodeURIComponent`; every step consumes at
least one character, so `l.length` fuel always suffices. -/
def decodeURIComponentGo : Nat → List Char → Option (List Char)
  | _, [] => some []
  | 0, _ :: _ => none
  | fuel + 1, c :: rest => uriStep (decodeURIComponentGo fuel) c rest

def decodeURIComponent (l : List Char) : Option (List Char) :=
  decodeURIComponentGo l.length l

/-- `decodeDrawio` (App.jsx:483-502): trim, lenient base64 decode, raw
inflate to a string, percent-decode; any failure is caught and replaced by
the single message `Failed to decompress Draw.io file`. -/
def decodeDrawio (compressedContent : String) : Except String String :=
  let trimmed := trimStr compressedContent
  let decoded := base64DecodeLenient trimmed.data
  match inflateRaw decoded with
  | Except.error _ => Except.error "Failed to decompress Draw.io file"
  | Except.ok inflated =>
    let decompressed := utf8DecodeLossy inflated
    match decodeURIComponent decompressed with
    | none => Except.error "Failed to decompress Draw.io file"
    | some urlDecoded => Except.ok (String.mk urlDecoded)

/-- Modelled from the spec: the matching compression procedure of the
diagram editor — percent-encode the markup, raw-deflate the UTF-8 bytes
(stored blocks), then base64. -/
def compressDrawio (markup : String) : String :=
  String.mk (base64Encode (deflateRaw (utf8Encode (encodeURIComponent markup.data))))

instance {ε α : Type} [DecidableEq ε] [DecidableEq α] : DecidableEq (Except ε α) := fun x y =>
  match x, y with
  | Except.ok a, Except.ok b =>
    match decEq a b with
    | isTrue h => isTrue (h ▸ rfl)
    | isFalse h => isFalse (fun he => h (Except.ok.inj he))
  | Except.error a, Except.error b =>
    match decEq a b with
    | isTrue h => isTrue (h ▸ rfl)
    | isFalse h => isFalse (fun he => h (Except.error.inj he))
  | Except.ok _, Except.error _ => isFalse (fun he => Except.noConfusion he)
  | Except.error _, Except.ok _ => isFalse (fun he => Except.noConfusion he)

/-- JSON string escaping as `JSON.stringify` performs it: backslash, double
quote, and control characters. -/
def jsonEscapeChar (c : Char) : List Char :=
  if c = '"' then ['\\', '"']
  else if c = '\\' then ['\\', '\\']
  else if c = Char.ofNat 8 then ['\\', 'b']
  else if c = Char.ofNat 9 then ['\\', 't']
  else if c = Char.ofNat 10 then ['\\', 'n']
  else if c = Char.ofNat 12 then ['\\', 'f']
  else if c = Char.ofNat 13 then ['\\', 'r']
  else if c.toNat < 32 then
    ['\\', 'u', '0', '0', hexDigitUpper (c.toNat / 16), hexDigitUpper (c.toNat % 16)]
  else [c]

/-- A JSON string literal. -/
def jsonString (s : String) : List Char :=
  '"' :: (s.data.foldr (fun c acc => jsonEscapeChar c ++ acc) []) ++ ['"']

/-- A JSON number from a natural. -/
def jsonNat (n : Nat) : List Char := (toString n).data

/-- A JSON boolean. -/
def jsonBool (b : Bool) : List Char := if b then "true".data else "false".data

/-- Left brace / right brace characters (object delimiters). -/
def lbrace : Char := Char.ofNat 123

/-- The right-brace character. -/
def rbrace : Char := Char.ofNat 125

/-- One `name: value` member. -/
def jsonMember (name : String) (value : List Char) : List Char :=
  jsonString name ++ [':'] ++ value

/-- Comma-joined members wrapped in braces. -/
def jsonObject (members : List (List Char)) : List Char :=
  lbrace :: (List.intercalate [','] members) ++ [rbrace]

/-- Serialisation of the single `d_e` data element (field order as written
in the source, App.jsx:707-719). -/
def stringifyDataElement (d : DataElement) : List Char :=
  jsonObject
    [jsonMember "uniqueName" (jsonString d.uniqueName),
     jsonMember "name" (jsonString d.name),
     jsonMember "labelDescription" (jsonString d.labelDescription),
     jsonMember "type" (jsonString d.type),
     jsonMember "key" (jsonBool d.key),
     jsonMember "isVisible" (jsonBool d.isVisible),
     jsonMember "isMandatory" (jsonBool d.isMandatory),
     jsonMember "askOnlyOnce" (jsonBool d.askOnlyOnce),
     jsonMember "isSystemField" (jsonBool d.isSystemField),
     jsonMember "fieldType" (jsonString d.fieldType),
     jsonMember "validation" (jsonString d.validation)]

/-- Serialisation of one script record, JS object-key insertion order. -/
def stringifyRecord : ScriptRecord → List Char
  | ScriptRecord.config c =>
    jsonObject
      [jsonMember "seedId" (jsonNat c.seedId),
       jsonMember "endNodeId" (jsonString c.endNodeId),
       jsonMember "genericDelayJumpTime" (jsonString c.genericDelayJumpTime),
       jsonMember "genericDelayJumpNode" (jsonString c.genericDelayJumpNode),
       jsonMember "genericRedisplayTime" (jsonString c.genericRedisplayTime),
       jsonMember "genericRedisplayMessage" (jsonString c.genericRedisplayMessage),
       jsonMember "dataContextExpirationTime" (jsonString c.dataContextExpirationTime),
       jsonMember "engineVersion" (jsonNat c.engineVersion),
       jsonMember "allowUsingAI" (jsonBool c.allowUsingAI),
       jsonMember "importMismatches"
         ('[' :: (List.intercalate [','] (c.importMismatches.map jsonString)) ++ [']']),
       jsonMember "assistantId" (jsonString c.assistantId)]
  | ScriptRecord.node n =>
    jsonObject
      ([jsonMember "id" (jsonString n.id),
        jsonMember "text" (jsonString n.text),
        jsonMember "parent" (jsonString n.parent)] ++
       (match n.buttonDisplayMode with
        | some v => [jsonMember "buttonDisplayMode" (jsonString v)]
        | none => []) ++
       [jsonMember "rI" (jsonString n.rI),
        jsonMember "addChannelStateMessage" (jsonBool n.addChannelStateMessage)] ++
       (if n.attachments then [jsonMember "attachments" [lbrace, rbrace]] else []) ++
       (match n.bodyHtml with
        | some v => [jsonMember "bodyHtml" (jsonString v)]
        | none => []) ++
       (match n.step with
        | some v => [jsonMember "step" (jsonString v)]
        | none => []) ++
       (match n.unknown with
        | some v => [jsonMember "unknown" (jsonString v)]
        | none => []) ++
       (match n.error with
        | some v => [jsonMember "error" (jsonBool v)]
        | none => []) ++
       (match n.endVal with
        | some v => [jsonMember "end" (jsonString v)]
        | none => []) ++
       (match n.d_e with
        | some ds =>
          [jsonMember "d_e" ('[' :: (List.intercalate [','] (ds.map stringifyDataElement)) ++ [']'])]
        | none => []))

/-- `JSON.stringify(scriptArray)` (App.jsx:824). -/
def stringifyScriptArray (records : List ScriptRecord) : List Char :=
  '[' :: (List.intercalate [','] (records.map stringifyRecord)) ++ [']']

/-- Global replacement of one character by a string, the semantics of each
`String.prototype.replace(/x/g, rep)` stage (App.jsx:825-830). -/
def replaceAllChar (c : Char) (rep : List Char) : List Char → List Char
  | [] => []
  | x :: xs => (if x = c then rep else [x]) ++ replaceAllChar c rep xs

/-- The five sequential replacements escaping the payload (App.jsx:825-830):
`&` then `<` then `>` then `"` then `'`. -/
def escapeXmlValue (l : List Char) : List Char :=
  replaceAllChar (Char.ofNat 39) "&apos;".data
    (replaceAllChar '"' "&quot;".data
      (replaceAllChar '>' "&gt;".data
        (replaceAllChar '<' "&lt;".data
          (replaceAllChar '&' "&amp;".data l))))

/-- The final XML envelope (App.jsx:833-840), with the two
environment-dependent values (epoch milliseconds and localised timestamp)
taken as parameters. -/
def generateCommboxXML (nowMs : Nat) (timestamp : String) (nodes : List DiagramNode)
    (connections : List Connection) : String :=
  let scriptValue := stringifyScriptArray (scriptArrayOf nodes connections)
  let escapedValue := escapeXmlValue scriptValue
  "<?xml version=\"1.0\" encoding=\"UTF-8\"?>\n<Section Name=\"Scripts\">\n    <SCRIPT Value=\"" ++
    String.mk escapedValue ++
    "\" \n            EncryptedStreamId=\"generated_" ++ toString nowMs ++
    "\" \n            Name=\"Bot Generated " ++ timestamp ++
    "\" \n            Brand=\"802\" />\n</Section>"

/-! ## Conversion endpoint -/

/-- The JSON body the conversion endpoint answers with (App.jsx:877-894),
restricted to the fields the claims speak about. -/
structure ConvertResponse where
  success : Bool
  xml : Option String
  mxGraphModelXml : Option String
  error : Option String
deriving DecidableEq, Repr

/-- The conversion path of `POST /api/converter/convert` from the point the
compressed diagram payload has been extracted (App.jsx:505-549, 857-895):
decode, parse the recovered markup (the xml2js pass is a parameter), extract
nodes and connections, generate the XML; any thrown error becomes a
`success: false` body carrying only the message. -/
def convertPayload (parseGraphModel : String → Except String (List MxCell))
    (nowMs : Nat) (timestamp : String) (compressed : String) : ConvertResponse :=
  match decodeDrawio compressed with
  | Except.error e =>
    { success := false, xml := none, mxGraphModelXml := none, error := some e }
  | Except.ok markup =>
    match parseGraphModel markup with
    | Except.error e =>
      { success := false, xml := none, mxGraphModelXml := none, error := some e }
    | Except.ok cells =>
      { success := true,
        xml := some (generateCommboxXML nowMs timestamp (extractNodes cells)
          (extractConnections cells)),
        mxGraphModelXml := some markup,
        error := none }

/-- Per-character view of the five escape stages. -/
def escChar (c : Char) : List Char :=
  if c = '&' then "&amp;".data
  else if c = '<' then "&lt;".data
  else if c = '>' then "&gt;".data
  else if c = '"' then "&quot;".data
  else if c = Char.ofNat 39 then "&apos;".data
  else [c]

/-- Per-character escaping of a list. -/
def escData (l : List Char) : List Char :=
  l.foldr (fun c acc => escChar c ++ acc) []

/-- Every `&` in the list starts one of the five entity escapes. -/
def ampEscaped : List Char → Bool
  | [] => true
  | c :: rest =>
    (if c = '&' then
      matchesAt "amp;".data rest || matchesAt "lt;".data rest ||
        matchesAt "gt;".data rest || matchesAt "quot;".data rest ||
        matchesAt "apos;".data rest
     else true) && ampEscaped rest

/-- The escaped payload contains no raw markup character: no `<`, `>`, `"`
or `'`, and every `&` begins an entity escape. -/
def xmlValueSafe (l : List Char) : Bool :=
  !(l.contains '<') && !(l.contains '>') && !(l.contains '"') &&
    !(l.contains (Char.ofNat 39)) && ampEscaped l

/-- A diagram node whose label holds the three markup characters of the
claim. -/
def evilLabelNode : DiagramNode :=
  { id := some "x", value := "<a> & \"b\"", style := "", parent := none, geometry := [] }

/-- The percent-encoding of one character (the per-character piece of
`encodeURIComponent`). -/
def uriEncodeChar (c : Char) : List Char :=
  if isUnreservedURI c then [c]
  else (utf8EncodeChar c).foldr (fun b a => percentByte b ++ a) []

lemma foldChildren_extends (nodeMap : NodeMap) (fuel : Nat)
    (ih : ∀ st node parentId, ∃ l,
      (processNode nodeMap fuel st node parentId).scriptArray = st.scriptArray ++ l ∧
        ∀ r ∈ l, isConvertRecord r) :
    ∀ (children : List (Option String)) (st : GenState) (pid : String),
      ∃ l, (children.foldl (fun acc childId =>
          match lookupEntry childId nodeMap with
          | some childNode => processNode nodeMap fuel acc childNode pid
          | none => acc) st).scriptArray = st.scriptArray ++ l ∧
        ∀ r ∈ l, isConvertRecord r := by
  intro children
  induction children with
  | nil => intro st pid; exact ⟨[], by simp, by simp⟩
  | cons c cs ihc =>
    intro st pid
    simp only [List.foldl_cons]
    cases hc : lookupEntry c nodeMap with
    | none =>
      obtain ⟨l, hl, hconv⟩ := ihc st pid
      exact ⟨l, hl, hconv⟩
    | some childNode =>
      obtain ⟨l1, hl1, hc1⟩ := ih st childNode pid
      obtain ⟨l2, hl2, hc2⟩ := ihc (processNode nodeMap fuel st childNode pid) pid
      refine ⟨l1 ++ l2, ?_, ?_⟩
      · rw [hl2, hl1, List.append_assoc]
      · intro r hr
        rcases List.mem_append.mp hr with h | h
        · exact hc1 r h
        · exact hc2 r h

lemma processNode_extends (nodeMap : NodeMap) :
    ∀ (fuel : Nat) (st : GenState) (node : HierarchyNode) (parentId : String),
      ∃ l, (processNode nodeMap fuel st node parentId).scriptArray = st.scriptArray ++ l ∧
        ∀ r ∈ l, isConvertRecord r := by
  intro fuel
  induction fuel with
  | zero => intro st node parentId; exact ⟨[], by simp [processNode], by simp⟩
  | succ f ih =>
    intro st node parentId
    by_cases hmem : node.id ∈ st.processedNodes
    · refine ⟨[], ?_, by simp⟩
      simp [processNode, hmem]
    · have hfold := foldChildren_extends nodeMap f ih node.children
        ⟨st.scriptArray ++ [ScriptRecord.node (convertToCommboxNode node st.nodeIndex parentId)],
         st.nodeIndex + 1, node.id :: st.processedNodes⟩
        (convertToCommboxNode node st.nodeIndex parentId).id
      obtain ⟨l, hl, hconv⟩ := hfold
      refine ⟨ScriptRecord.node (convertToCommboxNode node st.nodeIndex parentId) :: l, ?_, ?_⟩
      · simp only [processNode, hmem, if_false]
        simpa [List.append_assoc] using hl
      · intro r hr
        rcases List.mem_cons.mp hr with hr | hr
        · exact ⟨node, st.nodeIndex, parentId, hr⟩
        · exact hconv r hr

lemma genFold_extends (nodeMap : NodeMap) (fuel : Nat) :
    ∀ (roots : List HierarchyNode) (st : GenState),
      ∃ l, (roots.foldl (fun st root => processNode nodeMap fuel st root "node_0") st).scriptArray
          = st.scriptArray ++ l ∧ ∀ r ∈ l, isConvertRecord r := by
  intro roots
  induction roots with
  | nil => intro st; exact ⟨[], by simp, by simp⟩
  | cons root rest ihr =>
    intro st
    simp only [List.foldl_cons]
    obtain ⟨l1, hl1, hc1⟩ := processNode_extends nodeMap fuel st root "node_0"
    obtain ⟨l2, hl2, hc2⟩ := ihr (processNode nodeMap fuel st root "node_0")
    refine ⟨l1 ++ l2, ?_, ?_⟩
    · rw [hl2, hl1, List.append_assoc]
    · intro r hr
      rcases List.mem_append.mp hr with h | h
      · exact hc1 r h
      · exact hc2 r h

/-- The emitted state decomposed: the two boilerplate records followed by
converted diagram records. -/
lemma emittedState_decomp (fuel : Nat) (nodes : List DiagramNode)
    (connections : List Connection) :
    ∃ l, (emittedState fuel nodes connections).scriptArray = [configRecord, rootRecord] ++ l ∧
      ∀ r ∈ l, isConvertRecord r := by
  obtain ⟨l, hl, hc⟩ := genFold_extends (buildHierarchy nodes connections).1 fuel
    (buildHierarchy nodes connections).2 ⟨[configRecord, rootRecord], 2, []⟩
  exact ⟨l, hl, hc⟩

/-- The full script array decomposed: boilerplate head, converted diagram
records, fixed tail. -/
lemma scriptArrayOfFuel_decomp (fuel : Nat) (nodes : List DiagramNode)
    (connections : List Connection) :
    ∃ l, scriptArrayOfFuel fuel nodes connections =
        [configRecord, rootRecord] ++ l ++
          [groupingRecord, standingTransferRecord, standingErrorRecord, standingUnknownRecord] ∧
      ∀ r ∈ l, isConvertRecord r := by
  obtain ⟨l, hl, hc⟩ := emittedState_decomp fuel nodes connections
  refine ⟨l, ?_, hc⟩
  simp only [scriptArrayOfFuel]
  rw [hl]

/-! ## Field lemmas for converted records -/

lemma convert_id (n : HierarchyNode) (i : Nat) (p : String) :
    (convertToCommboxNode n i p).id = "n_" ++ toString i := by
  unfold convertToCommboxNode
  dsimp only
  split_ifs <;> rfl

lemma convert_buttonDisplayMode (n : HierarchyNode) (i : Nat) (p : String) :
    (convertToCommboxNode n i p).buttonDisplayMode = none := by
  unfold convertToCommboxNode
  dsimp only
  split_ifs <;> rfl

lemma convert_attachments (n : HierarchyNode) (i : Nat) (p : String) :
    (convertToCommboxNode n i p).attachments = true := by
  unfold convertToCommboxNode
  dsimp only
  split_ifs <;> rfl

lemma convert_text (n : HierarchyNode) (i : Nat) (p : String) :
    (convertToCommboxNode n i p).text =
      if n.value = "" then "Node " ++ toString i else n.value := by
  unfold convertToCommboxNode
  dsimp only
  split_ifs <;> rfl

lemma convert_parent (n : HierarchyNode) (i : Nat) (p : String) :
    (convertToCommboxNode n i p).parent = p := by
  unfold convertToCommboxNode
  dsimp only
  split_ifs <;> rfl

lemma convert_step (n : HierarchyNode) (i : Nat) (p : String) :
    (convertToCommboxNode n i p).step =
      if detectNodeType n = "transfer" then some "agent_node" else none := by
  unfold convertToCommboxNode
  dsimp only
  split_ifs <;> simp_all

/-! ## String disambiguation lemmas -/

lemma append_ne_of_take_ne (p x q : String) (k : Nat) (hk : k ≤ p.data.length)
    (hne : p.data.take k ≠ q.data.take k) : p ++ x ≠ q := by
  intro h
  apply hne
  have hd : (p ++ x).data = q.data := congrArg String.data h
  rw [String.data_append] at hd
  calc p.data.take k = (p.data ++ x.data).take k := (List.take_append_of_le_length hk).symm
    _ = q.data.take k := by rw [hd]

lemma nUnderscore_ne_node0 (x : String) : "n_" ++ x ≠ "node_0" :=
  append_ne_of_take_ne "n_" x "node_0" 2 (by decide) (by decide)

lemma nodeText_ne_transferText (x : String) : "Node " ++ x ≠ "מעבר לנציג" :=
  append_ne_of_take_ne "Node " x "מעבר לנציג" 1 (by decide) (by decide)

/-! ## Converted records never equal the fixed boilerplate records -/

lemma convert_ne_config (n : HierarchyNode) (i : Nat) (p : String) :
    ScriptRecord.node (convertToCommboxNode n i p) ≠ configRecord := by
  simp [configRecord]

lemma convert_ne_root (n : HierarchyNode) (i : Nat) (p : String) :
    ScriptRecord.node (convertToCommboxNode n i p) ≠ rootRecord := by
  intro h
  have hid : (convertToCommboxNode n i p).id = "node_0" := by
    have := congrArg ScriptRecord.idF h
    simpa [rootRecord, ScriptRecord.idF] using this
  rw [convert_id] at hid
  exact nUnderscore_ne_node0 _ hid

lemma convert_ne_grouping (n : HierarchyNode) (i : Nat) (p : String) :
    ScriptRecord.node (convertToCommboxNode n i p) ≠ groupingRecord := by
  intro h
  simp only [groupingRecord] at h
  have hrec := ScriptRecord.node.inj h
  have hbdm : (convertToCommboxNode n i p).buttonDisplayMode = some "1" := by rw [hrec]
  rw [convert_buttonDisplayMode] at hbdm
  exact Option.noConfusion hbdm

lemma convert_ne_standingError (n : HierarchyNode) (i : Nat) (p : String) :
    ScriptRecord.node (convertToCommboxNode n i p) ≠ standingErrorRecord := by
  intro h
  simp only [standingErrorRecord] at h
  have hrec := ScriptRecord.node.inj h
  have hatt : (convertToCommboxNode n i p).attachments = false := by rw [hrec]
  rw [convert_attachments] at hatt
  exact Bool.noConfusion hatt

lemma convert_ne_standingUnknown (n : HierarchyNode) (i : Nat) (p : String) :
    ScriptRecord.node (convertToCommboxNode n i p) ≠ standingUnknownRecord := by
  intro h
  simp only [standingUnknownRecord] at h
  have hrec := ScriptRecord.node.inj h
  have hatt : (convertToCommboxNode n i p).attachments = false := by rw [hrec]
  rw [convert_attachments] at hatt
  exact Bool.noConfusion hatt

lemma convert_ne_standingTransfer (n : HierarchyNode) (i : Nat) (p : String) :
    ScriptRecord.node (convertToCommboxNode n i p) ≠ standingTransferRecord := by
  intro h
  simp only [standingTransferRecord] at h
  have hrec := ScriptRecord.node.inj h
  have htext : (convertToCommboxNode n i p).text = "מעבר לנציג" := by rw [hrec]
  have hstep : (convertToCommboxNode n i p).step = none := by rw [hrec]
  rw [convert_text] at htext
  rw [convert_step] at hstep
  by_cases hv : n.value = ""
  · rw [if_pos hv] at htext
    exact nodeText_ne_transferText _ htext
  · rw [if_neg hv] at htext
    have hdet : detectNodeType n = "transfer" := by
      unfold detectNodeType
      have hsub : strIncludes (lowerStr n.value) "מעבר לנציג" = true := by
        rw [htext]
        decide
      simp [hsub]
    rw [if_pos hdet] at hstep
    exact Option.noConfusion hstep

/-! ## Parent-precedes-children checker -/

lemma seenAfter_nil (seen : List String) : seenAfter seen [] = seen := rfl

lemma seenAfter_cons (seen : List String) (r : ScriptRecord) (rest : List ScriptRecord) :
    seenAfter seen (r :: rest) =
      seenAfter (match r.idF with | some i => i :: seen | none => seen) rest := rfl

lemma parentsPrecedeAux_cons (seen : List String) (r : ScriptRecord)
    (rest : List ScriptRecord) :
    parentsPrecedeAux seen (r :: rest) =
      ((match r.parentF with
        | none => true
        | some p => p == "#" || decide (p ∈ seen)) &&
       parentsPrecedeAux (match r.idF with | some i => i :: seen | none => seen) rest) := rfl

lemma parentsPrecedeAux_append (l1 l2 : List ScriptRecord) : ∀ seen,
    parentsPrecedeAux seen (l1 ++ l2) =
      (parentsPrecedeAux seen l1 && parentsPrecedeAux (seenAfter seen l1) l2) := by
  induction l1 with
  | nil => intro seen; simp [parentsPrecedeAux, seenAfter_nil]
  | cons r rest ih =>
    intro seen
    rw [List.cons_append, parentsPrecedeAux_cons, parentsPrecedeAux_cons, ih,
      seenAfter_cons, Bool.and_assoc]

lemma mem_seenAfter (x : String) (l : List ScriptRecord) : ∀ seen,
    x ∈ seenAfter seen l ↔ x ∈ seen ∨ ∃ r ∈ l, r.idF = some x := by
  induction l with
  | nil => intro seen; simp [seenAfter_nil]
  | cons r rest ih =>
    intro seen
    rw [seenAfter_cons]
    cases hid : r.idF with
    | none =>
      rw [ih seen]
      constructor
      · rintro (h | h)
        · exact Or.inl h
        · obtain ⟨r2, hr2, hx⟩ := h
          exact Or.inr ⟨r2, List.mem_cons_of_mem _ hr2, hx⟩
      · rintro (h | ⟨r2, hr2, hx⟩)
        · exact Or.inl h
        · rcases List.mem_cons.mp hr2 with rfl | hr2
          · rw [hid] at hx; exact Option.noConfusion hx
          · exact Or.inr ⟨r2, hr2, hx⟩
    | some i =>
      rw [ih (i :: seen)]
      constructor
      · rintro (h | h)
        · rcases List.mem_cons.mp h with rfl | h
          · exact Or.inr ⟨r, List.mem_cons_self _ _, hid⟩
          · exact Or.inl h
        · obtain ⟨r2, hr2, hx⟩ := h
          exact Or.inr ⟨r2, List.mem_cons_of_mem _ hr2, hx⟩
      · rintro (h | ⟨r2, hr2, hx⟩)
        · exact Or.inl (List.mem_cons_of_mem _ h)
        · rcases List.mem_cons.mp hr2 with rfl | hr2
          · rw [hid] at hx
            exact Or.inl (List.mem_cons.mpr (Or.inl (Option.some.inj hx).symm))
          · exact Or.inr ⟨r2, hr2, hx⟩

lemma foldChildren_good (nodeMap : NodeMap) (fuel : Nat)
    (ihg : ∀ st node parentId, parentsPrecede st.scriptArray = true →
      (∃ r ∈ st.scriptArray, r.idF = some parentId) →
      parentsPrecede (processNode nodeMap fuel st node parentId).scriptArray = true) :
    ∀ (children : List (Option String)) (st : GenState) (pid : String),
      parentsPrecede st.scriptArray = true →
      (∃ r ∈ st.scriptArray, r.idF = some pid) →
      parentsPrecede ((children.foldl (fun acc childId =>
        match lookupEntry childId nodeMap with
        | some childNode => processNode nodeMap fuel acc childNode pid
        | none => acc) st)).scriptArray = true := by
  intro children
  induction children with
  | nil => intro st pid hg _; exact hg
  | cons c cs ihc =>
    intro st pid hg hpid
    simp only [List.foldl_cons]
    cases hc : lookupEntry c nodeMap with
    | none => exact ihc st pid hg hpid
    | some childNode =>
      have hg' := ihg st childNode pid hg hpid
      obtain ⟨l, hl, -⟩ := processNode_extends nodeMap fuel st childNode pid
      refine ihc _ pid hg' ?_
      obtain ⟨r, hr, hid⟩ := hpid
      exact ⟨r, by rw [hl]; exact List.mem_append_left _ hr, hid⟩

lemma processNode_good (nodeMap : NodeMap) :
    ∀ (fuel : Nat) (st : GenState) (node : HierarchyNode) (parentId : String),
      parentsPrecede st.scriptArray = true →
      (∃ r ∈ st.scriptArray, r.idF = some parentId) →
      parentsPrecede (processNode nodeMap fuel st node parentId).scriptArray = true := by
  intro fuel
  induction fuel with
  | zero => intro st node parentId hg _; simpa [processNode] using hg
  | succ f ih =>
    intro st node parentId hg hpid
    by_cases hmem : node.id ∈ st.processedNodes
    · simpa [processNode, hmem] using hg
    · simp only [processNode, hmem, if_false]
      set rec0 := convertToCommboxNode node st.nodeIndex parentId with hrec0
      have hg1 : parentsPrecede (st.scriptArray ++ [ScriptRecord.node rec0]) = true := by
        unfold parentsPrecede
        rw [parentsPrecedeAux_append]
        refine Bool.and_eq_true_iff.mpr ⟨hg, ?_⟩
        rw [parentsPrecedeAux_cons]
        have hpar : (ScriptRecord.node rec0).parentF = some parentId := by
          simp [ScriptRecord.parentF, hrec0, convert_parent]
        rw [hpar]
        have hmemp : parentId ∈ seenAfter [] st.scriptArray :=
          (mem_seenAfter parentId st.scriptArray []).mpr (Or.inr hpid)
        simp [hmemp, parentsPrecedeAux]
      exact foldChildren_good nodeMap f ih node.children
        ⟨st.scriptArray ++ [ScriptRecord.node rec0], st.nodeIndex + 1,
          node.id :: st.processedNodes⟩ rec0.id hg1
        ⟨ScriptRecord.node rec0,
          List.mem_append_right _ (List.mem_singleton.mpr rfl), rfl⟩

lemma genFold_good (nodeMap : NodeMap) (fuel : Nat) :
    ∀ (roots : List HierarchyNode) (st : GenState),
      parentsPrecede st.scriptArray = true →
      (∃ r ∈ st.scriptArray, r.idF = some "node_0") →
      parentsPrecede ((roots.foldl (fun st root =>
        processNode nodeMap fuel st root "node_0") st)).scriptArray = true := by
  intro roots
  induction roots with
  | nil => intro st hg _; exact hg
  | cons root rest ihr =>
    intro st hg h0
    simp only [List.foldl_cons]
    have hg' := processNode_good nodeMap fuel st root "node_0" hg h0
    obtain ⟨l, hl, -⟩ := processNode_extends nodeMap fuel st root "node_0"
    refine ihr _ hg' ?_
    obtain ⟨r, hr, hid⟩ := h0
    exact ⟨r, by rw [hl]; exact List.mem_append_left _ hr, hid⟩

lemma emittedState_good (fuel : Nat) (nodes : List DiagramNode)
    (connections : List Connection) :
    parentsPrecede (emittedState fuel nodes connections).scriptArray = true := by
  have hinit : parentsPrecede ([configRecord, rootRecord] : List ScriptRecord) = true := by
    decide
  have h0 : ∃ r ∈ ([configRecord, rootRecord] : List ScriptRecord), r.idF = some "node_0" :=
    ⟨rootRecord, by simp, rfl⟩
  exact genFold_good (buildHierarchy nodes connections).1 fuel
    (buildHierarchy nodes connections).2 ⟨[configRecord, rootRecord], 2, []⟩ hinit h0

lemma rootRecord_mem_emitted (fuel : Nat) (nodes : List DiagramNode)
    (connections : List Connection) :
    rootRecord ∈ (emittedState fuel nodes connections).scriptArray := by
  obtain ⟨l, hl, -⟩ := emittedState_decomp fuel nodes connections
  rw [hl]
  simp

/-! ## Sequential-id invariant -/

lemma foldChildren_idxInv (nodeMap : NodeMap) (fuel : Nat)
    (ih : ∀ st node parentId, IdxInv st → IdxInv (processNode nodeMap fuel st node parentId)) :
    ∀ (children : List (Option String)) (st : GenState) (pid : String), IdxInv st →
      IdxInv ((children.foldl (fun acc childId =>
        match lookupEntry childId nodeMap with
        | some childNode => processNode nodeMap fuel acc childNode pid
        | none => acc) st)) := by
  intro children
  induction children with
  | nil => intro st pid h; exact h
  | cons c cs ihc =>
    intro st pid h
    simp only [List.foldl_cons]
    cases hc : lookupEntry c nodeMap with
    | none => exact ihc st pid h
    | some childNode => exact ihc _ pid (ih st childNode pid h)

lemma processNode_idxInv (nodeMap : NodeMap) :
    ∀ (fuel : Nat) (st : GenState) (node : HierarchyNode) (parentId : String),
      IdxInv st → IdxInv (processNode nodeMap fuel st node parentId) := by
  intro fuel
  induction fuel with
  | zero => intro st node parentId h; simpa [processNode] using h
  | succ f ih =>
    intro st node parentId h
    by_cases hmem : node.id ∈ st.processedNodes
    · simpa [processNode, hmem] using h
    · simp only [processNode, hmem, if_false]
      obtain ⟨hidx, h2, hlen, hnd, hseq⟩ := h
      refine foldChildren_idxInv nodeMap f ih node.children _ _ ?_
      refine ⟨?_, ?_, ?_, ?_, ?_⟩
      · simp [hidx]
      · simp only [List.length_append, List.length_cons, List.length_nil]
        omega
      · simp only [List.length_append, List.length_cons, List.length_nil]
        omega
      · exact List.nodup_cons.mpr ⟨hmem, hnd⟩
      · intro k hk h2k
        simp only [List.length_append, List.length_cons, List.length_nil] at hk
        by_cases hlt : k < st.scriptArray.length
        · have := hseq k hlt h2k
          simpa [List.getElem_append_left hlt] using this
        · have hkeq : k = st.scriptArray.length := by omega
          subst hkeq
          simp only [List.get_eq_getElem]
          rw [List.getElem_concat_length _ _ _ rfl]
          simp [ScriptRecord.idF, convert_id, hidx]

lemma genFold_idxInv (nodeMap : NodeMap) (fuel : Nat) :
    ∀ (roots : List HierarchyNode) (st : GenState), IdxInv st →
      IdxInv ((roots.foldl (fun st root =>
        processNode nodeMap fuel st root "node_0") st)) := by
  intro roots
  induction roots with
  | nil => intro st h; exact h
  | cons root rest ihr =>
    intro st h
    simp only [List.foldl_cons]
    exact ihr _ (processNode_idxInv nodeMap fuel st root "node_0" h)

lemma emittedState_idxInv (fuel : Nat) (nodes : List DiagramNode)
    (connections : List Connection) : IdxInv (emittedState fuel nodes connections) := by
  refine genFold_idxInv (buildHierarchy nodes connections).1 fuel
    (buildHierarchy nodes connections).2 ⟨[configRecord, rootRecord], 2, []⟩ ?_
  refine ⟨rfl, by decide, by decide, by decide, ?_⟩
  intro k hk h2k
  simp only [List.length_cons, List.length_nil] at hk
  omega

lemma two_ids_count (A : List ScriptRecord) (i j : Nat) (s : String)
    (hij : i < j) (hi : i < A.length) (hj : j < A.length)
    (hsi : (A.get ⟨i, hi⟩).idF = some s) (hsj : (A.get ⟨j, hj⟩).idF = some s) :
    2 ≤ (A.filterMap ScriptRecord.idF).count s := by
  have hsplit : A = A.take j ++ A.drop j := (List.take_append_drop j A).symm
  have h1 : 0 < ((A.take j).filterMap ScriptRecord.idF).count s := by
    refine List.count_pos_iff.mpr ?_
    refine List.mem_filterMap.mpr ⟨A.get ⟨i, hi⟩, ?_, hsi⟩
    have hti : i < (A.take j).length := by simp [List.length_take]; omega
    have : (A.take j)[i] = A[i] := List.getElem_take A
    rw [show A.get ⟨i, hi⟩ = A[i] from rfl, ← this]
    exact List.getElem_mem _
  have h2 : 0 < ((A.drop j).filterMap ScriptRecord.idF).count s := by
    refine List.count_pos_iff.mpr ?_
    refine List.mem_filterMap.mpr ⟨A.get ⟨j, hj⟩, ?_, hsj⟩
    rw [List.drop_eq_getElem_cons hj]
    exact List.mem_cons_self _ _
  calc 2 ≤ ((A.take j).filterMap ScriptRecord.idF).count s +
        ((A.drop j).filterMap ScriptRecord.idF).count s := by omega
    _ = (A.filterMap ScriptRecord.idF).count s := by
        conv_rhs => rw [hsplit]
        rw [List.filterMap_append, List.count_append]

lemma not_nodup_of_dupIdAt (A : List ScriptRecord) (i j : Nat) (s : String)
    (h : dupIdAt A i j s) : ¬ (A.filterMap ScriptRecord.idF).Nodup := by
  obtain ⟨hi, hj, hne, hsi, hsj⟩ := h
  intro hnd
  have hle := List.nodup_iff_count_le_one.mp hnd s
  rcases Nat.lt_or_ge i j with hij | hij
  · have := two_ids_count A i j s hij hi hj hsi hsj
    omega
  · have hij' : j < i := by omega
    have := two_ids_count A j i s hij' hj hi hsj hsi
    omega

lemma scriptArrayOf_eq_append (nodes : List DiagramNode) (connections : List Connection) :
    scriptArrayOf nodes connections =
      (emittedState (nodes.length + 1) nodes connections).scriptArray ++
        [groupingRecord, standingTransferRecord, standingErrorRecord,
          standingUnknownRecord] := rfl

lemma dup_of_seq (nodes : List DiagramNode) (connections : List Connection) (k t : Nat)
    (h2 : 2 ≤ k)
    (hkE : k < (emittedState (nodes.length + 1) nodes connections).scriptArray.length)
    (ht : t < 4)
    (hidt : (([groupingRecord, standingTransferRecord, standingErrorRecord,
        standingUnknownRecord] : List ScriptRecord).get ⟨t, ht⟩).idF =
      some ("n_" ++ toString k)) :
    dupIdAt (scriptArrayOf nodes connections) k
      ((emittedState (nodes.length + 1) nodes connections).scriptArray.length + t)
      ("n_" ++ toString k) := by
  have hlen : (scriptArrayOf nodes connections).length =
      (emittedState (nodes.length + 1) nodes connections).scriptArray.length + 4 := by
    rw [scriptArrayOf_eq_append, List.length_append]
    rfl
  refine ⟨by omega, by omega, by omega, ?_, ?_⟩
  · have hb1 : k < ((emittedState (nodes.length + 1) nodes connections).scriptArray ++
        [groupingRecord, standingTransferRecord, standingErrorRecord,
          standingUnknownRecord]).length := by
      simp only [List.length_append]; simp only [List.length_cons, List.length_nil]
      omega
    show ((((emittedState (nodes.length + 1) nodes connections).scriptArray ++
      [groupingRecord, standingTransferRecord, standingErrorRecord,
        standingUnknownRecord])[k]).idF) = some ("n_" ++ toString k)
    rw [List.getElem_append_left hkE]
    exact (emittedState_idxInv (nodes.length + 1) nodes connections).2.2.2.2 k hkE h2
  · have hb2 : (emittedState (nodes.length + 1) nodes connections).scriptArray.length + t <
        ((emittedState (nodes.length + 1) nodes connections).scriptArray ++
          [groupingRecord, standingTransferRecord, standingErrorRecord,
            standingUnknownRecord]).length := by
      simp only [List.length_append]; simp only [List.length_cons, List.length_nil]
      omega
    show ((((emittedState (nodes.length + 1) nodes connections).scriptArray ++
      [groupingRecord, standingTransferRecord, standingErrorRecord,
        standingUnknownRecord])[(emittedState (nodes.length + 1) nodes
          connections).scriptArray.length + t]).idF) = some ("n_" ++ toString k)
    rw [List.getElem_append_right (by omega)]
    have hidx : (emittedState (nodes.length + 1) nodes connections).scriptArray.length + t -
        (emittedState (nodes.length + 1) nodes connections).scriptArray.length = t := by
      omega
    have hb3 : (emittedState (nodes.length + 1) nodes connections).scriptArray.length + t -
        (emittedState (nodes.length + 1) nodes connections).scriptArray.length <
        ([groupingRecord, standingTransferRecord, standingErrorRecord,
          standingUnknownRecord] : List ScriptRecord).length := by
      rw [hidx]; exact ht
    rw [show (([groupingRecord, standingTransferRecord, standingErrorRecord,
        standingUnknownRecord] : List ScriptRecord)[(emittedState (nodes.length + 1) nodes
          connections).scriptArray.length + t -
          (emittedState (nodes.length + 1) nodes connections).scriptArray.length]) =
        (([groupingRecord, standingTransferRecord, standingErrorRecord,
          standingUnknownRecord] : List ScriptRecord).get ⟨t, ht⟩) from by
      congr 1]
    exact hidt

lemma tail_id_0 : (([groupingRecord, standingTransferRecord, standingErrorRecord,
    standingUnknownRecord] : List ScriptRecord).get ⟨0, by decide⟩).idF =
    some ("n_" ++ toString 3) := by decide

lemma tail_id_1 : (([groupingRecord, standingTransferRecord, standingErrorRecord,
    standingUnknownRecord] : List ScriptRecord).get ⟨1, by decide⟩).idF =
    some ("n_" ++ toString 10) := by decide

lemma tail_id_2 : (([groupingRecord, standingTransferRecord, standingErrorRecord,
    standingUnknownRecord] : List ScriptRecord).get ⟨2, by decide⟩).idF =
    some ("n_" ++ toString 11) := by decide

lemma tail_id_3 : (([groupingRecord, standingTransferRecord, standingErrorRecord,
    standingUnknownRecord] : List ScriptRecord).get ⟨3, by decide⟩).idF =
    some ("n_" ++ toString 12) := by decide


/-! ## Claim theorems -/

/-- C1: for every input diagram (any node and connection lists), every record
in the emitted script array whose `parent` field is present references either
the root sentinel `"#"` or the id of a record emitted earlier in the list;
no parent references an id that appears only later or not at all.
(`parentsPrecede` scans left to right, accepting a parent only if it is
`"#"` or an id already seen.) -/
theorem emitted_parent_precedes_children (nodes : List DiagramNode)
    (connections : List Connection) :
    parentsPrecede (scriptArrayOf nodes connections) = true := by
  have hgood := emittedState_good (nodes.length + 1) nodes connections
  have hroot := rootRecord_mem_emitted (nodes.length + 1) nodes connections
  have h0mem : "node_0" ∈
      seenAfter [] (emittedState (nodes.length + 1) nodes connections).scriptArray :=
    (mem_seenAfter _ _ _).mpr (Or.inr ⟨rootRecord, hroot, rfl⟩)
  rw [scriptArrayOf_eq_append]
  unfold parentsPrecede
  rw [parentsPrecedeAux_append]
  refine Bool.and_eq_true_iff.mpr ⟨hgood, ?_⟩
  rw [parentsPrecedeAux_cons]
  simp only [groupingRecord, ScriptRecord.parentF, ScriptRecord.idF]
  rw [parentsPrecedeAux_cons]
  simp only [standingTransferRecord, ScriptRecord.parentF, ScriptRecord.idF]
  rw [parentsPrecedeAux_cons]
  simp only [standingErrorRecord, ScriptRecord.parentF, ScriptRecord.idF]
  rw [parentsPrecedeAux_cons]
  simp only [standingUnknownRecord, ScriptRecord.parentF, ScriptRecord.idF]
  simp [parentsPrecedeAux, h0mem, List.mem_cons]

/-- C2: for every input (a fortiori every valid non-empty one), the emitted
record list starts with the global configuration record (record 0) and
contains exactly one configuration record, exactly one synthetic root record,
exactly one grouping record, and exactly three standing-process records
(transfer, error, unknown), independent of the input's node and edge
content. -/
theorem fixed_boilerplate_always_present (nodes : List DiagramNode)
    (connections : List Connection) :
    (scriptArrayOf nodes connections).head? = some configRecord ∧
    (scriptArrayOf nodes connections).countP (· == configRecord) = 1 ∧
    (scriptArrayOf nodes connections).countP (· == rootRecord) = 1 ∧
    (scriptArrayOf nodes connections).countP (· == groupingRecord) = 1 ∧
    (scriptArrayOf nodes connections).countP
      (fun r => r == standingTransferRecord || r == standingErrorRecord ||
        r == standingUnknownRecord) = 3 := by
  obtain ⟨l, harr, hconv⟩ := scriptArrayOfFuel_decomp (nodes.length + 1) nodes connections
  have hz1 : l.countP (· == configRecord) = 0 :=
    List.countP_eq_zero.mpr (fun r hr => by
      obtain ⟨n, i, p, rfl⟩ := hconv r hr
      simpa using convert_ne_config n i p)
  have hz2 : l.countP (· == rootRecord) = 0 :=
    List.countP_eq_zero.mpr (fun r hr => by
      obtain ⟨n, i, p, rfl⟩ := hconv r hr
      simpa using convert_ne_root n i p)
  have hz3 : l.countP (· == groupingRecord) = 0 :=
    List.countP_eq_zero.mpr (fun r hr => by
      obtain ⟨n, i, p, rfl⟩ := hconv r hr
      simpa using convert_ne_grouping n i p)
  have hz4 : l.countP (fun r => r == standingTransferRecord || r == standingErrorRecord ||
      r == standingUnknownRecord) = 0 :=
    List.countP_eq_zero.mpr (fun r hr => by
      obtain ⟨n, i, p, rfl⟩ := hconv r hr
      simp only [Bool.or_eq_true, beq_iff_eq]
      push_neg
      exact ⟨⟨convert_ne_standingTransfer n i p, convert_ne_standingError n i p⟩,
        convert_ne_standingUnknown n i p⟩)
  have harr' : scriptArrayOf nodes connections = [configRecord, rootRecord] ++ l ++
      [groupingRecord, standingTransferRecord, standingErrorRecord,
        standingUnknownRecord] := harr
  rw [harr']
  refine ⟨by simp, ?_, ?_, ?_, ?_⟩ <;>
    simp [List.countP_append, hz1, hz2, hz3, hz4, List.countP_cons] <;> decide

/-- C4: classification is case-insensitive and follows the fixed precedence
with first match winning (transfer, unknown, error, end/close, start, input
label keywords, then ellipse/circle and rhombus/diamond style hints, else
Message): `detectNodeType` coincides with the spec-ordered first-match
classifier on every node, and in particular a node whose label contains an
error keyword and whose style is a rhombus classifies as Error, not
Decision. -/
theorem label_precedence_classification :
    (∀ n : HierarchyNode, detectNodeType n = specClassify n.value n.style) ∧
    detectNodeType errorRhombusNode = "error" := by
  constructor
  · intro n
    simp only [detectNodeType, specClassify, firstMatch, labelKeywordRules, styleKeywordRules,
      List.any_cons, List.any_nil, Bool.or_false, Bool.or_assoc]
    split_ifs <;> rfl
  · decide

/-- C10: whenever at least two diagram nodes are emitted (record list length
at least 8 = two boilerplate + two diagram + four fixed records), the second
emitted diagram node (position 3) receives sequential id `"n_3"`, which is
also the id of the always-appended grouping record (position length-4), so
the list holds two distinct records with the same id and record ids are not
pairwise distinct; likewise the sequential ids `"n_10"`, `"n_11"`, `"n_12"`
(positions 10, 11, 12, present once nine, ten, eleven diagram nodes are
emitted) coincide with the ids of the three fixed standing-process
records. -/
theorem sequential_ids_collide_with_fixed_ids (nodes : List DiagramNode)
    (connections : List Connection) :
    (8 ≤ (scriptArrayOf nodes connections).length →
      dupIdAt (scriptArrayOf nodes connections) 3
        ((scriptArrayOf nodes connections).length - 4) "n_3" ∧
      ¬ ((scriptArrayOf nodes connections).filterMap ScriptRecord.idF).Nodup) ∧
    (15 ≤ (scriptArrayOf nodes connections).length →
      dupIdAt (scriptArrayOf nodes connections) 10
        ((scriptArrayOf nodes connections).length - 3) "n_10") ∧
    (16 ≤ (scriptArrayOf nodes connections).length →
      dupIdAt (scriptArrayOf nodes connections) 11
        ((scriptArrayOf nodes connections).length - 2) "n_11") ∧
    (17 ≤ (scriptArrayOf nodes connections).length →
      dupIdAt (scriptArrayOf nodes connections) 12
        ((scriptArrayOf nodes connections).length - 1) "n_12") := by
  have hlen : (scriptArrayOf nodes connections).length =
      (emittedState (nodes.length + 1) nodes connections).scriptArray.length + 4 := by
    rw [scriptArrayOf_eq_append, List.length_append]
    rfl
  refine ⟨?_, ?_, ?_, ?_⟩
  · intro h8
    have hd := dup_of_seq nodes connections 3 0 (by omega) (by omega) (by decide) tail_id_0
    have hd' : dupIdAt (scriptArrayOf nodes connections) 3
        ((scriptArrayOf nodes connections).length - 4) "n_3" := by
      have he1 : ("n_" ++ toString 3 : String) = "n_3" := by decide
      have he2 : (emittedState (nodes.length + 1) nodes connections).scriptArray.length + 0 =
          (scriptArrayOf nodes connections).length - 4 := by omega
      rwa [he1, he2] at hd
    exact ⟨hd', not_nodup_of_dupIdAt _ _ _ _ hd'⟩
  · intro h15
    have hd := dup_of_seq nodes connections 10 1 (by omega) (by omega) (by decide) tail_id_1
    have he1 : ("n_" ++ toString 10 : String) = "n_10" := by decide
    have he2 : (emittedState (nodes.length + 1) nodes connections).scriptArray.length + 1 =
        (scriptArrayOf nodes connections).length - 3 := by omega
    rwa [he1, he2] at hd
  · intro h16
    have hd := dup_of_seq nodes connections 11 2 (by omega) (by omega) (by decide) tail_id_2
    have he1 : ("n_" ++ toString 11 : String) = "n_11" := by decide
    have he2 : (emittedState (nodes.length + 1) nodes connections).scriptArray.length + 2 =
        (scriptArrayOf nodes connections).length - 2 := by omega
    rwa [he1, he2] at hd
  · intro h17
    have hd := dup_of_seq nodes connections 12 3 (by omega) (by omega) (by decide) tail_id_3
    have he1 : ("n_" ++ toString 12 : String) = "n_12" := by decide
    have he2 : (emittedState (nodes.length + 1) nodes connections).scriptArray.length + 3 =
        (scriptArrayOf nodes connections).length - 1 := by omega
    rwa [he1, he2] at hd

/-- C10 witness: on a concrete diagram with eleven emitted nodes, every
collision promised by `sequential_ids_collide_with_fixed_ids` materialises. -/
theorem sequential_ids_collide_with_fixed_ids_witness :
    (dupIdAt (scriptArrayOf elevenNodes []) 3
        ((scriptArrayOf elevenNodes []).length - 4) "n_3" ∧
      ¬ ((scriptArrayOf elevenNodes []).filterMap ScriptRecord.idF).Nodup) ∧
    dupIdAt (scriptArrayOf elevenNodes []) 10
      ((scriptArrayOf elevenNodes []).length - 3) "n_10" ∧
    dupIdAt (scriptArrayOf elevenNodes []) 11
      ((scriptArrayOf elevenNodes []).length - 2) "n_11" ∧
    dupIdAt (scriptArrayOf elevenNodes []) 12
      ((scriptArrayOf elevenNodes []).length - 1) "n_12" := by
  have h := sequential_ids_collide_with_fixed_ids elevenNodes []
  exact ⟨h.1 (by decide), h.2.1 (by decide), h.2.2.1 (by decide), h.2.2.2 (by decide)⟩

/-! ## Fuel sufficiency for the traversal -/

lemma lookupEntry_mem (k : Option String) (v : HierarchyNode) : ∀ m : NodeMap,
    lookupEntry k m = some v → (k, v) ∈ m := by
  intro m
  induction m with
  | nil => intro h; exact Option.noConfusion h
  | cons p rest ih =>
    obtain ⟨k2, v2⟩ := p
    intro h
    rw [lookupEntry] at h
    split_ifs at h with hk
    · have hv := Option.some.inj h
      subst hk
      subst hv
      exact List.mem_cons_self _ _
    · exact List.mem_cons_of_mem _ (ih h)

lemma lookupEntry_id (m : NodeMap) (hcoh : Coh m) (k : Option String) (v : HierarchyNode)
    (h : lookupEntry k m = some v) : v.id = k :=
  hcoh (k, v) (lookupEntry_mem k v m h)

lemma lookupEntry_mem_keys (m : NodeMap) (k : Option String) (v : HierarchyNode)
    (h : lookupEntry k m = some v) : k ∈ keysOf m := by
  have := lookupEntry_mem k v m h
  exact List.mem_map.mpr ⟨(k, v), this, rfl⟩

lemma keysOf_setEntry_mem (k : Option String) (v : HierarchyNode) : ∀ m : NodeMap,
    k ∈ keysOf m → keysOf (setEntry k v m) = keysOf m := by
  intro m
  induction m with
  | nil => intro h; simp [keysOf] at h
  | cons p rest ih =>
    intro h
    rw [setEntry]
    split_ifs with hk
    · simp [keysOf, hk]
    · obtain ⟨k2, v2⟩ := p
      simp only at hk
      have hmem : k ∈ keysOf rest := by
        simp only [keysOf, List.map_cons, List.mem_cons] at h
        rcases h with h | h
        · exact absurd h.symm hk
        · exact h
      simp only [keysOf, List.map_cons]
      congr 1
      exact ih hmem

lemma keysOf_setEntry_new (k : Option String) (v : HierarchyNode) : ∀ m : NodeMap,
    k ∉ keysOf m → keysOf (setEntry k v m) = keysOf m ++ [k] := by
  intro m
  induction m with
  | nil => intro _; rfl
  | cons p rest ih =>
    intro h
    obtain ⟨k', v'⟩ := p
    simp only [keysOf, List.map_cons, List.mem_cons] at h
    push_neg at h
    rw [setEntry]
    split_ifs with hk
    · exact absurd hk.symm h.1
    · simp only [keysOf, List.map_cons, List.cons_append]
      congr 1
      exact ih h.2

lemma Coh_setEntry (k : Option String) (v : HierarchyNode) (hv : v.id = k) :
    ∀ m : NodeMap, Coh m → Coh (setEntry k v m) := by
  intro m
  induction m with
  | nil =>
    intro _
    intro p hp
    rw [setEntry] at hp
    have hpeq := List.mem_singleton.mp hp
    subst hpeq
    exact hv
  | cons q rest ih =>
    obtain ⟨k2, v2⟩ := q
    intro hcoh
    intro p hp
    rw [setEntry] at hp
    split_ifs at hp with hk
    · rcases List.mem_cons.mp hp with hpe | hp2
      · subst hpe; exact hv
      · exact hcoh _ (List.mem_cons_of_mem _ hp2)
    · rcases List.mem_cons.mp hp with hpe | hp2
      · subst hpe; exact hcoh _ (List.mem_cons_self _ _)
      · exact ih (fun q2 hq => hcoh q2 (List.mem_cons_of_mem _ hq)) p hp2

lemma keysOf_setEntry_length (k : Option String) (v : HierarchyNode) (m : NodeMap) :
    (keysOf (setEntry k v m)).length ≤ (keysOf m).length + 1 := by
  by_cases h : k ∈ keysOf m
  · rw [keysOf_setEntry_mem k v m h]; omega
  · rw [keysOf_setEntry_new k v m h]; simp

lemma buildHierarchy_map_eq (nodes : List DiagramNode) (connections : List Connection) :
    (buildHierarchy nodes connections).1 = connections.foldl applyConnection
      (initialMapOf nodes) := rfl

lemma initialMapOf_coh_len (nodes : List DiagramNode) :
    Coh (initialMapOf nodes) ∧ (keysOf (initialMapOf nodes)).length ≤ nodes.length := by
  suffices h : ∀ (ns : List DiagramNode) (m : NodeMap), Coh m →
      Coh (ns.foldl (fun m node => setEntry node.id
        { id := node.id, value := node.value, style := node.style,
          parent := node.parent, geometry := node.geometry, children := [] } m) m) ∧
      (keysOf (ns.foldl (fun m node => setEntry node.id
        { id := node.id, value := node.value, style := node.style,
          parent := node.parent, geometry := node.geometry, children := [] } m) m)).length ≤
        (keysOf m).length + ns.length by
    have := h nodes [] (by intro p hp; exact absurd hp (List.not_mem_nil p))
    exact ⟨this.1, by simpa [keysOf] using this.2⟩
  intro ns
  induction ns with
  | nil => intro m hm; exact ⟨hm, by simp⟩
  | cons n rest ih =>
    intro m hm
    simp only [List.foldl_cons]
    have hm1 : Coh (setEntry n.id
        { id := n.id, value := n.value, style := n.style,
          parent := n.parent, geometry := n.geometry, children := [] } m) :=
      Coh_setEntry n.id _ rfl m hm
    obtain ⟨h1, h2⟩ := ih _ hm1
    refine ⟨h1, ?_⟩
    have := keysOf_setEntry_length n.id
      { id := n.id, value := n.value, style := n.style,
        parent := n.parent, geometry := n.geometry, children := [] } m
    simp only [List.length_cons]
    omega

lemma applyConnection_coh_keys (m : NodeMap) (hcoh : Coh m) (conn : Connection) :
    Coh (applyConnection m conn) ∧ keysOf (applyConnection m conn) = keysOf m := by
  rw [applyConnection]
  cases hs : lookupEntry conn.source m with
  | none => exact ⟨hcoh, rfl⟩
  | some sourceNode =>
    cases ht : lookupEntry conn.target m with
    | none => exact ⟨hcoh, rfl⟩
    | some targetNode =>
      simp only
      have hsid : sourceNode.id = conn.source := lookupEntry_id m hcoh _ _ hs
      have hskey : conn.source ∈ keysOf m := lookupEntry_mem_keys m _ _ hs
      have hcoh1 : Coh (setEntry conn.source
          { sourceNode with children := sourceNode.children ++ [targetNode.id] } m) :=
        Coh_setEntry conn.source
          { sourceNode with children := sourceNode.children ++ [targetNode.id] } hsid m hcoh
      have hkeys1 : keysOf (setEntry conn.source
          { sourceNode with children := sourceNode.children ++ [targetNode.id] } m) =
          keysOf m := keysOf_setEntry_mem _ _ m hskey
      cases ht1 : lookupEntry conn.target (setEntry conn.source
          { sourceNode with children := sourceNode.children ++ [targetNode.id] } m) with
      | none => exact ⟨hcoh1, hkeys1⟩
      | some t =>
        simp only
        have htid : t.id = conn.target := lookupEntry_id _ hcoh1 _ _ ht1
        have htkey : conn.target ∈ keysOf (setEntry conn.source
            { sourceNode with children := sourceNode.children ++ [targetNode.id] } m) :=
          lookupEntry_mem_keys _ _ _ ht1
        refine ⟨Coh_setEntry conn.target { t with parent := sourceNode.id } htid _ hcoh1, ?_⟩
        rw [keysOf_setEntry_mem _ _ _ htkey, hkeys1]

lemma connFold_coh_keys (connections : List Connection) : ∀ (m : NodeMap), Coh m →
    Coh (connections.foldl applyConnection m) ∧
    keysOf (connections.foldl applyConnection m) = keysOf m := by
  induction connections with
  | nil => intro m hm; exact ⟨hm, rfl⟩
  | cons c cs ih =>
    intro m hm
    simp only [List.foldl_cons]
    obtain ⟨h1, h2⟩ := applyConnection_coh_keys m hm c
    obtain ⟨h3, h4⟩ := ih _ h1
    exact ⟨h3, by rw [h4, h2]⟩

lemma buildHierarchy_coh (nodes : List DiagramNode) (connections : List Connection) :
    Coh (buildHierarchy nodes connections).1 ∧
    (keysOf (buildHierarchy nodes connections).1).length ≤ nodes.length := by
  obtain ⟨hc, hl⟩ := initialMapOf_coh_len nodes
  obtain ⟨hc2, hk2⟩ := connFold_coh_keys connections (initialMapOf nodes) hc
  rw [buildHierarchy_map_eq]
  exact ⟨hc2, by rw [hk2]; exact hl⟩

lemma buildHierarchy_roots_keys (nodes : List DiagramNode) (connections : List Connection) :
    ∀ root ∈ (buildHierarchy nodes connections).2,
      root.id ∈ keysOf (buildHierarchy nodes connections).1 := by
  have hcoh := (buildHierarchy_coh nodes connections).1
  suffices h : ∀ (ns : List DiagramNode) (acc : List HierarchyNode),
      (∀ r ∈ acc, r.id ∈ keysOf (buildHierarchy nodes connections).1) →
      ∀ root ∈ ns.foldl (fun acc node =>
        match lookupEntry node.id (buildHierarchy nodes connections).1 with
        | some hierarchyNode =>
          if isRootParent hierarchyNode.parent then acc ++ [hierarchyNode] else acc
        | none => acc) acc,
        root.id ∈ keysOf (buildHierarchy nodes connections).1 by
    intro root hroot
    refine h nodes [] (by simp) root ?_
    exact hroot
  intro ns
  induction ns with
  | nil => intro acc hacc root hroot; exact hacc root hroot
  | cons n rest ih =>
    intro acc hacc root hroot
    simp only [List.foldl_cons] at hroot
    refine ih _ ?_ root hroot
    intro r hr
    cases hl : lookupEntry n.id (buildHierarchy nodes connections).1 with
    | none =>
      rw [hl] at hr
      exact hacc r hr
    | some hn =>
      rw [hl] at hr
      simp only at hr
      split_ifs at hr with hroot2
      · rcases List.mem_append.mp hr with hr | hr
        · exact hacc r hr
        · have := List.mem_singleton.mp hr
          subst this
          have := lookupEntry_id _ hcoh _ _ hl
          rw [this]
          exact lookupEntry_mem_keys _ _ _ hl
      · exact hacc r hr

lemma filter_length_mono {α : Type} (p q : α → Bool)
    (h : ∀ a, q a = true → p a = true) : ∀ l : List α,
    (l.filter q).length ≤ (l.filter p).length := by
  intro l
  induction l with
  | nil => simp
  | cons a rest ih =>
    simp only [List.filter_cons]
    by_cases hq : q a = true
    · rw [if_pos hq, if_pos (h a hq)]
      simpa using ih
    · rw [if_neg hq]
      split_ifs with hp
      · simp only [List.length_cons]
        omega
      · exact ih

lemma unvisitedCount_antitone (m : NodeMap) (v v2 : List (Option String))
    (h : ∀ x ∈ v, x ∈ v2) : unvisitedCount m v2 ≤ unvisitedCount m v := by
  refine filter_length_mono _ _ ?_ (keysOf m)
  intro a ha
  simp only [decide_eq_true_eq] at ha ⊢
  intro hmem
  exact ha (h a hmem)

lemma filter_notmem_cons_lt (k : Option String) (v : List (Option String)) (hkv : k ∉ v) :
    ∀ l : List (Option String), k ∈ l →
      (l.filter (fun x => decide (x ∉ k :: v))).length <
        (l.filter (fun x => decide (x ∉ v))).length := by
  intro l
  induction l with
  | nil => intro h; exact absurd h (List.not_mem_nil k)
  | cons a rest ih =>
    intro hmem
    simp only [List.filter_cons]
    by_cases hak : a = k
    · subst hak
      rw [if_neg (by simp), if_pos (by simpa using hkv)]
      simp only [List.length_cons]
      have hmono := filter_length_mono (fun x => decide (x ∉ v))
        (fun x => decide (x ∉ a :: v)) (by
          intro x hx
          simp only [decide_eq_true_eq, List.mem_cons] at hx ⊢
          intro hxv
          exact hx (Or.inr hxv)) rest
      omega
    · have hmem' : k ∈ rest := by
        rcases List.mem_cons.mp hmem with h | h
        · exact absurd h.symm hak
        · exact h
      have := ih hmem'
      by_cases hav : a ∈ v
      · rw [if_neg (by simp [hav]), if_neg (by simp [hav])]
        exact this
      · rw [if_pos (by simp [List.mem_cons, hav, hak]), if_pos (by simpa using hav)]
        simp only [List.length_cons]
        omega

lemma unvisitedCount_cons_lt (m : NodeMap) (k : Option String) (v : List (Option String))
    (hk : k ∈ keysOf m) (hkv : k ∉ v) :
    unvisitedCount m (k :: v) < unvisitedCount m v := by
  exact filter_notmem_cons_lt k v hkv (keysOf m) hk

lemma foldChildren_visited_mono (nodeMap : NodeMap) (fuel : Nat)
    (ih : ∀ st node parentId, ∀ x ∈ st.processedNodes,
      x ∈ (processNode nodeMap fuel st node parentId).processedNodes) :
    ∀ (children : List (Option String)) (st : GenState) (pid : String),
      ∀ x ∈ st.processedNodes,
        x ∈ ((children.foldl (fun acc childId =>
          match lookupEntry childId nodeMap with
          | some childNode => processNode nodeMap fuel acc childNode pid
          | none => acc) st)).processedNodes := by
  intro children
  induction children with
  | nil => intro st pid x hx; exact hx
  | cons c cs ihc =>
    intro st pid x hx
    simp only [List.foldl_cons]
    cases hc : lookupEntry c nodeMap with
    | none => exact ihc st pid x hx
    | some childNode => exact ihc _ pid x (ih st childNode pid x hx)

lemma processNode_visited_mono (nodeMap : NodeMap) :
    ∀ (fuel : Nat) (st : GenState) (node : HierarchyNode) (parentId : String),
      ∀ x ∈ st.processedNodes,
        x ∈ (processNode nodeMap fuel st node parentId).processedNodes := by
  intro fuel
  induction fuel with
  | zero => intro st node parentId x hx; simpa [processNode] using hx
  | succ f ih =>
    intro st node parentId x hx
    by_cases hmem : node.id ∈ st.processedNodes
    · simpa [processNode, hmem] using hx
    · simp only [processNode, hmem, if_false]
      exact foldChildren_visited_mono nodeMap f ih node.children _ _ x
        (List.mem_cons_of_mem _ hx)

lemma foldChildren_fuel_eq (m : NodeMap) (hcoh : Coh m) (f' : Nat)
    (hstep : ∀ st node pid, node.id ∈ keysOf m →
      unvisitedCount m st.processedNodes + 1 ≤ f' →
      processNode m (f' + 1) st node pid = processNode m f' st node pid) :
    ∀ (children : List (Option String)) (acc : GenState) (pid : String),
      unvisitedCount m acc.processedNodes + 1 ≤ f' →
      children.foldl (fun acc cid => match lookupEntry cid m with
        | some c => processNode m (f' + 1) acc c pid | none => acc) acc =
      children.foldl (fun acc cid => match lookupEntry cid m with
        | some c => processNode m f' acc c pid | none => acc) acc := by
  intro children
  induction children with
  | nil => intro acc pid _; rfl
  | cons c cs ihc =>
    intro acc pid hle
    simp only [List.foldl_cons]
    cases hc : lookupEntry c m with
    | none => exact ihc acc pid hle
    | some child =>
      simp only
      have hckey : child.id ∈ keysOf m := by
        rw [lookupEntry_id m hcoh c child hc]
        exact lookupEntry_mem_keys m c child hc
      rw [hstep acc child pid hckey hle]
      refine ihc _ pid ?_
      have hmono := processNode_visited_mono m f' acc child pid
      have := unvisitedCount_antitone m acc.processedNodes
        (processNode m f' acc child pid).processedNodes hmono
      omega

lemma processNode_fuel_succ (m : NodeMap) (hcoh : Coh m) :
    ∀ (f : Nat) (st : GenState) (node : HierarchyNode) (parentId : String),
      node.id ∈ keysOf m → unvisitedCount m st.processedNodes + 1 ≤ f →
      processNode m (f + 1) st node parentId = processNode m f st node parentId := by
  intro f
  induction f using Nat.strong_induction_on with
  | _ f IH =>
    intro st node parentId hkey hfuel
    obtain ⟨f', rfl⟩ : ∃ f', f = f' + 1 := ⟨f - 1, by omega⟩
    by_cases hmem : node.id ∈ st.processedNodes
    · simp [processNode, hmem]
    · simp only [processNode, hmem, if_false]
      have hlt : unvisitedCount m (node.id :: st.processedNodes) + 1 ≤ f' := by
        have := unvisitedCount_cons_lt m node.id st.processedNodes hkey hmem
        omega
      exact foldChildren_fuel_eq m hcoh f'
        (fun st2 n2 p2 hk2 hf2 => IH f' (by omega) st2 n2 p2 hk2 hf2)
        node.children _ _ hlt

lemma processNode_fuel_ge (m : NodeMap) (hcoh : Coh m) (f g : Nat) (hfg : f ≤ g) :
    ∀ (st : GenState) (node : HierarchyNode) (parentId : String),
      node.id ∈ keysOf m → unvisitedCount m st.processedNodes + 1 ≤ f →
      processNode m g st node parentId = processNode m f st node parentId := by
  induction g, hfg using Nat.le_induction with
  | base => intro st node parentId _ _; rfl
  | succ g hg ih =>
    intro st node parentId hkey hfuel
    rw [processNode_fuel_succ m hcoh g st node parentId hkey (by omega)]
    exact ih st node parentId hkey hfuel

lemma genFold_fuel_eq (m : NodeMap) (hcoh : Coh m) (f g : Nat) (hfg : f ≤ g) :
    ∀ (roots : List HierarchyNode) (st : GenState),
      (∀ r ∈ roots, r.id ∈ keysOf m) →
      unvisitedCount m st.processedNodes + 1 ≤ f →
      roots.foldl (fun st root => processNode m g st root "node_0") st =
        roots.foldl (fun st root => processNode m f st root "node_0") st := by
  intro roots
  induction roots with
  | nil => intro st _ _; rfl
  | cons root rest ihr =>
    intro st hkeys hfuel
    simp only [List.foldl_cons]
    rw [processNode_fuel_ge m hcoh f g hfg st root "node_0"
      (hkeys root (List.mem_cons_self _ _)) hfuel]
    refine ihr _ (fun r hr => hkeys r (List.mem_cons_of_mem _ hr)) ?_
    have hmono := processNode_visited_mono m f st root "node_0"
    have := unvisitedCount_antitone m st.processedNodes
      (processNode m f st root "node_0").processedNodes hmono
    omega

lemma unvisitedCount_nil (m : NodeMap) : unvisitedCount m [] = (keysOf m).length := by
  unfold unvisitedCount
  congr 1
  refine List.filter_eq_self.mpr ?_
  intro a _
  simp

lemma emittedState_fuel_indep (nodes : List DiagramNode) (connections : List Connection)
    (f : Nat) (hf : nodes.length + 1 ≤ f) :
    emittedState f nodes connections = emittedState (nodes.length + 1) nodes connections := by
  obtain ⟨hcoh, hlen⟩ := buildHierarchy_coh nodes connections
  have hroots := buildHierarchy_roots_keys nodes connections
  have hcount : unvisitedCount (buildHierarchy nodes connections).1
      (([] : List (Option String))) + 1 ≤ nodes.length + 1 := by
    rw [unvisitedCount_nil]
    omega
  exact genFold_fuel_eq (buildHierarchy nodes connections).1 hcoh (nodes.length + 1) f hf
    (buildHierarchy nodes connections).2 ⟨[configRecord, rootRecord], 2, []⟩ hroots hcount

/-- C3: for every input, cyclic edge lists included, the depth-first
emission terminates: the result is independent of the fuel bound once it
reaches `nodes.length + 1` (the JS recursion depth never exceeds that, so
the bounded model computes the same array as the unbounded recursion), each
diagram node is emitted at most once (the processed-id set is duplicate-free
and the array holds exactly one record per processed node beyond the two
boilerplate records), and sequential ids are assigned starting at 2 (the
record at position `k ≥ 2` has id `"n_k"`). -/
theorem depth_first_emission_terminates (nodes : List DiagramNode) (connections : List Connection)
    (f : Nat) (hf : nodes.length + 1 ≤ f) :
    scriptArrayOfFuel f nodes connections = scriptArrayOf nodes connections ∧
    (emittedState (nodes.length + 1) nodes connections).processedNodes.Nodup ∧
    (emittedState (nodes.length + 1) nodes connections).scriptArray.length =
      2 + (emittedState (nodes.length + 1) nodes connections).processedNodes.length ∧
    ∀ k (hk : k < (emittedState (nodes.length + 1) nodes connections).scriptArray.length),
      2 ≤ k →
      ((emittedState (nodes.length + 1) nodes connections).scriptArray.get ⟨k, hk⟩).idF =
        some ("n_" ++ toString k) := by
  obtain ⟨hidx, h2, hlen, hnd, hseq⟩ := emittedState_idxInv (nodes.length + 1) nodes connections
  refine ⟨?_, hnd, hlen, hseq⟩
  simp only [scriptArrayOf, scriptArrayOfFuel]
  rw [emittedState_fuel_indep nodes connections f hf]

/-- C3 witness: on the concrete cyclic diagram `R→A, A→B, B→A` the
emission stabilises and every node is emitted once. -/
theorem depth_first_emission_terminates_witness :
    cycleNodes.length + 1 ≤ 9 ∧
    scriptArrayOfFuel 9 cycleNodes cycleConnections =
      scriptArrayOf cycleNodes cycleConnections ∧
    (emittedState (cycleNodes.length + 1) cycleNodes cycleConnections).processedNodes.Nodup ∧
    (emittedState (cycleNodes.length + 1) cycleNodes cycleConnections).scriptArray.length =
      2 + (emittedState (cycleNodes.length + 1) cycleNodes
        cycleConnections).processedNodes.length := by
  have h := depth_first_emission_terminates cycleNodes cycleConnections 9 (by decide)
  exact ⟨by decide, h.1, h.2.1, h.2.2.1⟩


/-! ## Root characterisation (C5) -/

lemma lookup_setEntry_self (k : Option String) (v : HierarchyNode) : ∀ m : NodeMap,
    lookupEntry k (setEntry k v m) = some v := by
  intro m
  induction m with
  | nil => simp [setEntry, lookupEntry]
  | cons p rest ih =>
    obtain ⟨k2, v2⟩ := p
    rw [setEntry]
    split_ifs with hk
    · simp [lookupEntry]
    · rw [lookupEntry, if_neg hk]
      exact ih

lemma lookup_setEntry_other (k k2 : Option String) (v : HierarchyNode) (hne : k2 ≠ k) :
    ∀ m : NodeMap, lookupEntry k2 (setEntry k v m) = lookupEntry k2 m := by
  intro m
  induction m with
  | nil =>
    show lookupEntry k2 [(k, v)] = none
    rw [lookupEntry, if_neg (fun h => hne h.symm)]
    rfl
  | cons p rest ih =>
    obtain ⟨k3, v3⟩ := p
    rw [setEntry]
    split_ifs with hk
    · subst hk
      rw [lookupEntry, lookupEntry, if_neg (fun h => hne h.symm),
        if_neg (fun h => hne h.symm)]
    · rw [lookupEntry, lookupEntry]
      split_ifs with h2
      · rfl
      · exact ih

lemma lookup_none_iff_not_mem_keys (k : Option String) : ∀ m : NodeMap,
    lookupEntry k m = none ↔ k ∉ keysOf m := by
  intro m
  induction m with
  | nil => simp [lookupEntry, keysOf]
  | cons p rest ih =>
    obtain ⟨k2, v2⟩ := p
    rw [lookupEntry]
    split_ifs with hk
    · subst hk
      simp [keysOf]
    · simp only [keysOf, List.map_cons, List.mem_cons]
      rw [ih]
      constructor
      · intro h
        rintro (h2 | h2)
        · exact hk h2.symm
        · exact h h2
      · intro h h2
        exact h (Or.inr h2)

lemma applyConnection_parent_stable (m : NodeMap) (c : Connection) (x : Option String)
    (hnot : ¬(c.source ∈ keysOf m ∧ c.target ∈ keysOf m ∧ c.target = x)) :
    (lookupEntry x (applyConnection m c)).map HierarchyNode.parent =
      (lookupEntry x m).map HierarchyNode.parent := by
  rw [applyConnection]
  cases hs : lookupEntry c.source m with
  | none => rfl
  | some sourceNode =>
    cases ht : lookupEntry c.target m with
    | none => rfl
    | some targetNode =>
      simp only
      have hskey := lookupEntry_mem_keys m _ _ hs
      have htkey := lookupEntry_mem_keys m _ _ ht
      have htx : c.target ≠ x := fun h => hnot ⟨hskey, htkey, h⟩
      set m1 := setEntry c.source
        { sourceNode with children := sourceNode.children ++ [targetNode.id] } m with hm1
      have hstable1 : (lookupEntry x m1).map HierarchyNode.parent =
          (lookupEntry x m).map HierarchyNode.parent := by
        by_cases hxs : x = c.source
        · subst hxs
          rw [hm1, lookup_setEntry_self, hs]
          rfl
        · rw [hm1, lookup_setEntry_other _ _ _ (fun h => hxs h)]
      cases ht1 : lookupEntry c.target m1 with
      | none => exact hstable1
      | some t =>
        simp only
        rw [lookup_setEntry_other _ _ _ (fun h => htx h.symm)]
        exact hstable1

lemma connFold_parent_stable (nodes : List DiagramNode) (x : Option String) :
    ∀ (conns : List Connection) (m : NodeMap), keysOf m = keysOf (initialMapOf nodes) →
      Coh m →
      (∀ c ∈ conns, ¬ inboundResolving nodes c x) →
      (lookupEntry x (conns.foldl applyConnection m)).map HierarchyNode.parent =
        (lookupEntry x m).map HierarchyNode.parent := by
  intro conns
  induction conns with
  | nil => intro m _ _ _; rfl
  | cons c cs ih =>
    intro m hkeys hcoh hnot
    simp only [List.foldl_cons]
    obtain ⟨hcoh2, hkeys2⟩ := applyConnection_coh_keys m hcoh c
    rw [ih (applyConnection m c) (by rw [hkeys2, hkeys]) hcoh2
      (fun c2 hc2 => hnot c2 (List.mem_cons_of_mem _ hc2))]
    refine applyConnection_parent_stable m c x ?_
    intro ⟨h1, h2, h3⟩
    exact hnot c (List.mem_cons_self _ _) ⟨by rwa [← hkeys], by rwa [← hkeys], h3⟩

lemma initialFold_lookup_unset (k : Option String) :
    ∀ (ns : List DiagramNode) (m : NodeMap), (∀ n ∈ ns, n.id ≠ k) →
      lookupEntry k (ns.foldl (fun m node => setEntry node.id (initialRecordOf node) m) m) =
        lookupEntry k m := by
  intro ns
  induction ns with
  | nil => intro m _; rfl
  | cons n rest ih =>
    intro m hne
    simp only [List.foldl_cons]
    rw [ih _ (fun n2 h2 => hne n2 (List.mem_cons_of_mem _ h2)),
      lookup_setEntry_other _ _ _ (fun h => hne n (List.mem_cons_self _ _) h.symm)]

lemma initialMapOf_eq_fold (nodes : List DiagramNode) :
    initialMapOf nodes =
      nodes.foldl (fun m node => setEntry node.id (initialRecordOf node) m) [] := rfl

lemma initialMapOf_lookup (nodes : List DiagramNode) (node : DiagramNode)
    (hmem : node ∈ nodes) (hnodup : (nodes.map DiagramNode.id).Nodup) :
    lookupEntry node.id (initialMapOf nodes) = some (initialRecordOf node) := by
  rw [initialMapOf_eq_fold]
  suffices h : ∀ (ns : List DiagramNode) (m : NodeMap), node ∈ ns →
      (ns.map DiagramNode.id).Nodup →
      lookupEntry node.id
        (ns.foldl (fun m node => setEntry node.id (initialRecordOf node) m) m) =
        some (initialRecordOf node) from h nodes [] hmem hnodup
  intro ns
  induction ns with
  | nil => intro m hmem2 _; exact absurd hmem2 (List.not_mem_nil node)
  | cons n rest ih =>
    intro m hmem2 hnd
    simp only [List.map_cons, List.nodup_cons] at hnd
    simp only [List.foldl_cons]
    rcases List.mem_cons.mp hmem2 with heq | hmem3
    · subst heq
      rw [initialFold_lookup_unset node.id rest _ (fun n2 h2 hid => hnd.1 (hid ▸
        List.mem_map.mpr ⟨n2, h2, rfl⟩))]
      exact lookup_setEntry_self _ _ _
    · exact ih _ hmem3 hnd.2

lemma buildHierarchy_snd_eq (nodes : List DiagramNode) (conns : List Connection) :
    (buildHierarchy nodes conns).2 = nodes.foldl (fun acc node =>
      match lookupEntry node.id (buildHierarchy nodes conns).1 with
      | some hierarchyNode =>
        if isRootParent hierarchyNode.parent then acc ++ [hierarchyNode] else acc
      | none => acc) [] := rfl

lemma hierarchyFold_mem (M : NodeMap) :
    ∀ (ns : List DiagramNode) (acc : List HierarchyNode) (r : HierarchyNode),
      (r ∈ ns.foldl (fun acc node => match lookupEntry node.id M with
        | some h => if isRootParent h.parent then acc ++ [h] else acc
        | none => acc) acc) ↔
      (r ∈ acc ∨ ∃ n ∈ ns, lookupEntry n.id M = some r ∧ isRootParent r.parent = true) := by
  intro ns
  induction ns with
  | nil => intro acc r; simp
  | cons n rest ih =>
    intro acc r
    simp only [List.foldl_cons]
    rw [ih]
    cases hl : lookupEntry n.id M with
    | none =>
      simp only
      constructor
      · rintro (h | h)
        · exact Or.inl h
        · obtain ⟨n2, hn2, hl2, hr⟩ := h
          exact Or.inr ⟨n2, List.mem_cons_of_mem _ hn2, hl2, hr⟩
      · rintro (h | ⟨n2, hn2, hl2, hr⟩)
        · exact Or.inl h
        · rcases List.mem_cons.mp hn2 with heq | hn3
          · subst heq; rw [hl] at hl2; exact Option.noConfusion hl2
          · exact Or.inr ⟨n2, hn3, hl2, hr⟩
    | some h0 =>
      simp only
      split_ifs with hroot
      · constructor
        · rintro (h | h)
          · rcases List.mem_append.mp h with h2 | h2
            · exact Or.inl h2
            · have heq := List.mem_singleton.mp h2
              subst heq
              exact Or.inr ⟨n, List.mem_cons_self _ _, hl, hroot⟩
          · obtain ⟨n2, hn2, hl2, hr⟩ := h
            exact Or.inr ⟨n2, List.mem_cons_of_mem _ hn2, hl2, hr⟩
        · rintro (h | ⟨n2, hn2, hl2, hr⟩)
          · exact Or.inl (List.mem_append_left _ h)
          · rcases List.mem_cons.mp hn2 with heq | hn3
            · subst heq
              rw [hl] at hl2
              have := Option.some.inj hl2
              subst this
              exact Or.inl (List.mem_append_right _ (List.mem_singleton.mpr rfl))
            · exact Or.inr ⟨n2, hn3, hl2, hr⟩
      · constructor
        · rintro (h | h)
          · exact Or.inl h
          · obtain ⟨n2, hn2, hl2, hr⟩ := h
            exact Or.inr ⟨n2, List.mem_cons_of_mem _ hn2, hl2, hr⟩
        · rintro (h | ⟨n2, hn2, hl2, hr⟩)
          · exact Or.inl h
          · rcases List.mem_cons.mp hn2 with heq | hn3
            · subst heq
              rw [hl] at hl2
              have := Option.some.inj hl2
              subst this
              exact absurd hr hroot
            · exact Or.inr ⟨n2, hn3, hl2, hr⟩

/-- C5 (amended): a node is a forest root iff its final resolved parent
passes the root test (absent, empty, `"1"` or `"0"`), where the final
resolved parent of a node with no inbound resolving edge is its original
containment attribute — the edge-derived overwrite happens only for edge
targets.  Stated for diagrams with unique node ids: such a node appears in
the root list iff its containment attribute is absent, empty, `"1"` or
`"0"`. -/
theorem forest_root_characterisation (nodes : List DiagramNode) (conns : List Connection)
    (node : DiagramNode) (hmem : node ∈ nodes)
    (hnodup : (nodes.map DiagramNode.id).Nodup)
    (hnoin : ∀ c ∈ conns, ¬ inboundResolving nodes c node.id) :
    ((∃ h ∈ (buildHierarchy nodes conns).2, h.id = node.id) ↔
      isRootParent node.parent = true) := by
  have hcohI := (initialMapOf_coh_len nodes).1
  have hcohM := (buildHierarchy_coh nodes conns).1
  have hinit := initialMapOf_lookup nodes node hmem hnodup
  have hstable := connFold_parent_stable nodes node.id conns (initialMapOf nodes) rfl hcohI
    hnoin
  rw [hinit] at hstable
  rw [← buildHierarchy_map_eq] at hstable
  obtain ⟨h0, hlook0, hpar0⟩ : ∃ h0, lookupEntry node.id (buildHierarchy nodes conns).1 =
      some h0 ∧ h0.parent = node.parent := by
    cases hl : lookupEntry node.id (buildHierarchy nodes conns).1 with
    | none => rw [hl] at hstable; exact Option.noConfusion hstable
    | some h0 =>
      rw [hl] at hstable
      exact ⟨h0, rfl, Option.some.inj hstable⟩
  have hid0 : h0.id = node.id := lookupEntry_id _ hcohM _ _ hlook0
  constructor
  · rintro ⟨h, hh, hid⟩
    rw [buildHierarchy_snd_eq] at hh
    rcases (hierarchyFold_mem _ nodes [] h).mp hh with habs | ⟨n, hn, hlook, hroot⟩
    · exact absurd habs (List.not_mem_nil h)
    · have hnid : h.id = n.id := lookupEntry_id _ hcohM _ _ hlook
      have : n = node :=
        List.inj_on_of_nodup_map hnodup hn hmem (by rw [← hnid, hid])
      subst this
      rw [hlook0] at hlook
      have := Option.some.inj hlook
      subst this
      rwa [hpar0] at hroot
  · intro hroot
    refine ⟨h0, ?_, hid0⟩
    rw [buildHierarchy_snd_eq]
    exact (hierarchyFold_mem _ nodes [] h0).mpr
      (Or.inr ⟨node, hmem, hlook0, by rwa [hpar0]⟩)

/-- C5 counterexample: `strayNode` has no inbound edge at all (the
connection list is empty), yet because its containment attribute is `"5"`
it does not become a forest root — the hierarchy is empty.  This refutes
both the claimed "root iff no inbound edge or canvas-root parent" and "a
node with no inbound edge always becomes a forest root regardless of its
containment attribute": the containment attribute is only overridden when
an inbound resolving edge exists. -/
theorem no_inbound_edge_yet_not_root :
    (buildHierarchy [strayNode] []).2 = [] ∧ strayNode.parent = some "5" := by decide

/-- C5 witness: a node with unique id, no inbound edge, and containment
attribute `"1"` is a forest root, per the amended characterisation. -/
theorem forest_root_characterisation_witness :
    layerRootNode ∈ [strayNode, layerRootNode] ∧
    (([strayNode, layerRootNode].map DiagramNode.id).Nodup) ∧
    (∃ h ∈ (buildHierarchy [strayNode, layerRootNode] []).2, h.id = layerRootNode.id) := by
  have h := forest_root_characterisation [strayNode, layerRootNode] [] layerRootNode
    (by decide) (by decide) (fun c hc => absurd hc (List.not_mem_nil c))
  exact ⟨by decide, by decide, h.mpr (by decide)⟩

/-! ## Decompressor model -/

lemma replaceAllChar_append (c : Char) (rep : List Char) (a b : List Char) :
    replaceAllChar c rep (a ++ b) = replaceAllChar c rep a ++ replaceAllChar c rep b := by
  induction a with
  | nil => rfl
  | cons x xs ih =>
    simp only [List.cons_append, replaceAllChar, List.append_assoc]
    rw [show xs.append b = xs ++ b from rfl, ih]

lemma escapeXmlValue_append (a b : List Char) :
    escapeXmlValue (a ++ b) = escapeXmlValue a ++ escapeXmlValue b := by
  simp only [escapeXmlValue, replaceAllChar_append]

lemma escapeXmlValue_cons (x : Char) (xs : List Char) :
    escapeXmlValue (x :: xs) = escChar x ++ escapeXmlValue xs := by
  rw [show (x :: xs) = [x] ++ xs from rfl, escapeXmlValue_append]
  congr 1
  by_cases h1 : x = '&'
  · subst h1; rfl
  by_cases h2 : x = '<'
  · subst h2; rfl
  by_cases h3 : x = '>'
  · subst h3; rfl
  by_cases h4 : x = '"'
  · subst h4; rfl
  by_cases h5 : x = Char.ofNat 39
  · subst h5; rfl
  simp only [escapeXmlValue, escChar, replaceAllChar, if_neg h1, if_neg h2, if_neg h3,
    if_neg h4, if_neg h5, List.append_nil]

lemma escapeXmlValue_eq_escData (l : List Char) : escapeXmlValue l = escData l := by
  induction l with
  | nil => rfl
  | cons x xs ih => rw [escapeXmlValue_cons, ih]; rfl

lemma mem_escData (c : Char) (l : List Char) :
    c ∈ escData l ↔ ∃ x ∈ l, c ∈ escChar x := by
  induction l with
  | nil => simp [escData]
  | cons x xs ih =>
    show c ∈ escChar x ++ escData xs ↔ _
    rw [List.mem_append, ih]
    constructor
    · rintro (h | ⟨y, hy, hc⟩)
      · exact ⟨x, List.mem_cons_self _ _, h⟩
      · exact ⟨y, List.mem_cons_of_mem _ hy, hc⟩
    · rintro ⟨y, hy, hc⟩
      rcases List.mem_cons.mp hy with heq | hy2
      · subst heq; exact Or.inl hc
      · exact Or.inr ⟨y, hy2, hc⟩

lemma escChar_no_markup (x : Char) :
    ¬ '<' ∈ escChar x ∧ ¬ '>' ∈ escChar x ∧ ¬ '"' ∈ escChar x ∧
      ¬ Char.ofNat 39 ∈ escChar x := by
  unfold escChar
  by_cases h1 : x = '&'
  · subst h1; decide
  by_cases h2 : x = '<'
  · subst h2; decide
  by_cases h3 : x = '>'
  · subst h3; decide
  by_cases h4 : x = '"'
  · subst h4; decide
  by_cases h5 : x = Char.ofNat 39
  · subst h5; decide
  simp only [if_neg h1, if_neg h2, if_neg h3, if_neg h4, if_neg h5]
  refine ⟨?_, ?_, ?_, ?_⟩ <;>
    · intro h
      rcases List.mem_singleton.mp h with rfl
      first
        | exact h2 rfl
        | exact h3 rfl
        | exact h4 rfl
        | exact h5 rfl

lemma ampEscaped_cons (c : Char) (rest : List Char) :
    ampEscaped (c :: rest) =
      ((if c = '&' then
        matchesAt "amp;".data rest || matchesAt "lt;".data rest ||
          matchesAt "gt;".data rest || matchesAt "quot;".data rest ||
          matchesAt "apos;".data rest
       else true) && ampEscaped rest) := rfl

lemma ampEscaped_escChar (x : Char) (rest : List Char) (h : ampEscaped rest = true) :
    ampEscaped (escChar x ++ rest) = true := by
  unfold escChar
  by_cases h1 : x = '&'
  · subst h1; simp [ampEscaped_cons, matchesAt, h]
  by_cases h2 : x = '<'
  · subst h2; simp [ampEscaped_cons, matchesAt, h]
  by_cases h3 : x = '>'
  · subst h3; simp [ampEscaped_cons, matchesAt, h]
  by_cases h4 : x = '"'
  · subst h4; simp [ampEscaped_cons, matchesAt, h]
  by_cases h5 : x = Char.ofNat 39
  · subst h5; simp [ampEscaped_cons, matchesAt, h]
  simp only [if_neg h1, if_neg h2, if_neg h3, if_neg h4, if_neg h5, List.cons_append,
    List.nil_append, ampEscaped_cons, if_neg h1, h, Bool.and_true]

lemma ampEscaped_escData (l : List Char) : ampEscaped (escData l) = true := by
  induction l with
  | nil => rfl
  | cons x xs ih => exact ampEscaped_escChar x (escData xs) ih

lemma xmlValueSafe_escData (l : List Char) : xmlValueSafe (escData l) = true := by
  have hmem := fun c => mem_escData c l
  have hmk := escChar_no_markup
  unfold xmlValueSafe
  have hlt : ¬ '<' ∈ escData l := by
    rw [hmem]
    rintro ⟨x, _, hc⟩
    exact (hmk x).1 hc
  have hgt : ¬ '>' ∈ escData l := by
    rw [hmem]
    rintro ⟨x, _, hc⟩
    exact (hmk x).2.1 hc
  have hq : ¬ '"' ∈ escData l := by
    rw [hmem]
    rintro ⟨x, _, hc⟩
    exact (hmk x).2.2.1 hc
  have ha : ¬ Char.ofNat 39 ∈ escData l := by
    rw [hmem]
    rintro ⟨x, _, hc⟩
    exact (hmk x).2.2.2 hc
  simp [List.contains, hlt, hgt, hq, ha, ampEscaped_escData, List.elem_eq_mem]


/-! ## Claim theorems for the decompressor and escaping -/

/-- C7: whenever the (lenient) base64 decode of the trimmed payload yields
bytes that are not a valid raw-deflate stream, the conversion returns a
failure body with a non-empty error message and no `xml` field; moreover no
decode or parse failure of any kind ever returns partial output (`xml` and
`mxGraphModelXml` are absent whenever `success` is false). -/
theorem deflate_failure_yields_error_only
    (parseGraphModel : String → Except String (List MxCell)) (nowMs : Nat)
    (timestamp : String) (compressed : String) (e : String)
    (hfail : inflateRaw (base64DecodeLenient (trimStr compressed).data) =
      Except.error e) :
    convertPayload parseGraphModel nowMs timestamp compressed =
      { success := false, xml := none, mxGraphModelXml := none,
        error := some "Failed to decompress Draw.io file" } ∧
    "Failed to decompress Draw.io file" ≠ "" ∧
    (∀ (pgm2 : String → Except String (List MxCell)) (c2 : String),
      (convertPayload pgm2 nowMs timestamp c2).success = false →
      (convertPayload pgm2 nowMs timestamp c2).xml = none ∧
      (convertPayload pgm2 nowMs timestamp c2).mxGraphModelXml = none) := by
  refine ⟨?_, by decide, ?_⟩
  · simp only [convertPayload, decodeDrawio]
    rw [hfail]
  · intro pgm2 c2
    simp only [convertPayload]
    cases hd : decodeDrawio c2 with
    | error e2 => intro _; exact ⟨rfl, rfl⟩
    | ok markup =>
      simp only
      cases hp : pgm2 markup with
      | error e2 => intro _; exact ⟨rfl, rfl⟩
      | ok cells => intro hfalse; simp at hfalse

/-- C7 witness: the payload `"AAAA"` is well-formed base64 whose bytes are
not a valid raw-deflate stream; the conversion fails with the fixed message
and no `xml` field. -/
theorem deflate_failure_yields_error_only_witness :
    inflateRaw (base64DecodeLenient (trimStr "AAAA").data) =
      Except.error "inflate: unexpected end of stream" ∧
    convertPayload (fun _ => Except.ok []) 0 "" "AAAA" =
      { success := false, xml := none, mxGraphModelXml := none,
        error := some "Failed to decompress Draw.io file" } := by
  refine ⟨by decide, ?_⟩
  exact (deflate_failure_yields_error_only (fun _ => Except.ok []) 0 "" "AAAA"
    "inflate: unexpected end of stream" (by decide)).1

/-- C8 counterexample: the first decompression step does not fail on
malformed base64 — Node's decoder is lenient, so the garbage payload
`"!!!"` decodes (to no bytes) without a distinct `InvalidBase64` failure,
and the conversion then fails with exactly the same single error value that
a valid-base64/invalid-deflate payload (`"AAAA"`) produces: the failures of
steps 1 and 2 are not distinct, contradicting the claim. -/
theorem base64_step_not_distinct :
    base64DecodeLenient (trimStr "!!!").data = [] ∧
    decodeDrawio "!!!" = Except.error "Failed to decompress Draw.io file" ∧
    decodeDrawio "AAAA" = Except.error "Failed to decompress Draw.io file" :=
  ⟨by decide, by decide, by decide⟩

/-- C8 (amended): the first step decodes the whitespace-tolerant base64
payload leniently (invalid characters are skipped, the step itself never
fails), and every decompression failure, whatever the failing step,
surfaces as the single message `Failed to decompress Draw.io file` — the
steps' failures are not distinguished. -/
theorem decode_failure_single_message (s e : String)
    (h : decodeDrawio s = Except.error e) :
    e = "Failed to decompress Draw.io file" := by
  simp only [decodeDrawio] at h
  cases hi : inflateRaw (base64DecodeLenient (trimStr s).data) with
  | error e2 =>
    rw [hi] at h
    exact (Except.error.inj h).symm
  | ok inflated =>
    rw [hi] at h
    simp only at h
    cases hu : decodeURIComponent (utf8DecodeLossy inflated) with
    | none =>
      rw [hu] at h
      exact (Except.error.inj h).symm
    | some urlDecoded =>
      rw [hu] at h
      exact Except.noConfusion h

/-- C8 witness: the malformed-base64 payload `"!!!"` fails with the single
generic message. -/
theorem decode_failure_single_message_witness :
    decodeDrawio "!!!" = Except.error "Failed to decompress Draw.io file" ∧
    "Failed to decompress Draw.io file" = "Failed to decompress Draw.io file" :=
  ⟨by decide, decode_failure_single_message "!!!" "Failed to decompress Draw.io file"
    (by decide)⟩

/-- C6: for every record list, the escaped serialized JSON payload embedded
in the envelope has all five reserved markup characters escaped: it contains
no literal `<`, `>`, `"` or `'`, and every `&` in it begins one of the five
entity escapes (this is the precise sense in which no unescaped `&` or `"`
remains); in particular this holds for the record list generated from a
node whose label contains `<`, `&` and `"`. -/
theorem escaped_payload_has_no_markup :
    (∀ records : List ScriptRecord,
      xmlValueSafe (escapeXmlValue (stringifyScriptArray records)) = true) ∧
    xmlValueSafe (escapeXmlValue (stringifyScriptArray
      (scriptArrayOf [evilLabelNode] []))) = true := by
  have huniv : ∀ records : List ScriptRecord,
      xmlValueSafe (escapeXmlValue (stringifyScriptArray records)) = true := by
    intro records
    rw [escapeXmlValue_eq_escData]
    exact xmlValueSafe_escData _
  exact ⟨huniv, huniv _⟩

/-! ## Round-trip lemmas (C9) -/

lemma b64Val_b64Char : ∀ n, n < 64 → b64Val (b64Char n) = n := by decide

lemma isB64Char_b64Char : ∀ n, n < 64 → isB64Char (b64Char n) = true := by decide

lemma isB64Char_pad : isB64Char '=' = false := by decide

theorem base64_roundtrip : (bs : List Nat) → (∀ b ∈ bs, b < 256) →
    base64DecodeGroups ((base64Encode bs).filter isB64Char) = bs
  | [], _ => rfl
  | [b0], h => by
    have hb0 : b0 < 256 := h b0 (by simp)
    have h1 : b0 / 4 < 64 := by omega
    have h2 : (b0 % 4) * 16 < 64 := by omega
    show base64DecodeGroups (List.filter isB64Char
      [b64Char (b0 / 4), b64Char ((b0 % 4) * 16), '=', '=']) = [b0]
    rw [show List.filter isB64Char [b64Char (b0 / 4), b64Char ((b0 % 4) * 16), '=', '='] =
        [b64Char (b0 / 4), b64Char ((b0 % 4) * 16)] from by
      simp [List.filter, isB64Char_b64Char _ h1, isB64Char_b64Char _ h2, isB64Char_pad]]
    show [b64Val (b64Char (b0 / 4)) * 4 + b64Val (b64Char ((b0 % 4) * 16)) / 16] = [b0]
    rw [b64Val_b64Char _ h1, b64Val_b64Char _ h2]
    congr 1
    omega
  | [b0, b1], h => by
    have hb0 : b0 < 256 := h b0 (by simp)
    have hb1 : b1 < 256 := h b1 (by simp)
    have h1 : b0 / 4 < 64 := by omega
    have h2 : (b0 % 4) * 16 + b1 / 16 < 64 := by omega
    have h3 : (b1 % 16) * 4 < 64 := by omega
    show base64DecodeGroups (List.filter isB64Char
      [b64Char (b0 / 4), b64Char ((b0 % 4) * 16 + b1 / 16), b64Char ((b1 % 16) * 4), '=']) =
      [b0, b1]
    rw [show List.filter isB64Char [b64Char (b0 / 4), b64Char ((b0 % 4) * 16 + b1 / 16),
        b64Char ((b1 % 16) * 4), '='] =
        [b64Char (b0 / 4), b64Char ((b0 % 4) * 16 + b1 / 16), b64Char ((b1 % 16) * 4)] from by
      simp [List.filter, isB64Char_b64Char _ h1, isB64Char_b64Char _ h2,
        isB64Char_b64Char _ h3, isB64Char_pad]]
    show [b64Val (b64Char (b0 / 4)) * 4 + b64Val (b64Char ((b0 % 4) * 16 + b1 / 16)) / 16,
      (b64Val (b64Char ((b0 % 4) * 16 + b1 / 16)) % 16) * 16 +
        b64Val (b64Char ((b1 % 16) * 4)) / 4] = [b0, b1]
    rw [b64Val_b64Char _ h1, b64Val_b64Char _ h2, b64Val_b64Char _ h3]
    congr 1
    · omega
    · congr 1
      omega
  | b0 :: b1 :: b2 :: rest, h => by
    have hb0 : b0 < 256 := h b0 (by simp)
    have hb1 : b1 < 256 := h b1 (by simp)
    have hb2 : b2 < 256 := h b2 (by simp)
    have ih := base64_roundtrip rest (fun b hb => h b (by simp [hb]))
    have h1 : b0 / 4 < 64 := by omega
    have h2 : (b0 % 4) * 16 + b1 / 16 < 64 := by omega
    have h3 : (b1 % 16) * 4 + b2 / 64 < 64 := by omega
    have h4 : b2 % 64 < 64 := by omega
    show base64DecodeGroups (List.filter isB64Char
      ([b64Char (b0 / 4), b64Char ((b0 % 4) * 16 + b1 / 16),
        b64Char ((b1 % 16) * 4 + b2 / 64), b64Char (b2 % 64)] ++ base64Encode rest)) =
      b0 :: b1 :: b2 :: rest
    rw [List.filter_append]
    rw [show List.filter isB64Char [b64Char (b0 / 4), b64Char ((b0 % 4) * 16 + b1 / 16),
        b64Char ((b1 % 16) * 4 + b2 / 64), b64Char (b2 % 64)] =
        [b64Char (b0 / 4), b64Char ((b0 % 4) * 16 + b1 / 16),
          b64Char ((b1 % 16) * 4 + b2 / 64), b64Char (b2 % 64)] from by
      simp [List.filter, isB64Char_b64Char _ h1, isB64Char_b64Char _ h2,
        isB64Char_b64Char _ h3, isB64Char_b64Char _ h4]]
    show [b64Val (b64Char (b0 / 4)) * 4 + b64Val (b64Char ((b0 % 4) * 16 + b1 / 16)) / 16,
      (b64Val (b64Char ((b0 % 4) * 16 + b1 / 16)) % 16) * 16 +
        b64Val (b64Char ((b1 % 16) * 4 + b2 / 64)) / 4,
      (b64Val (b64Char ((b1 % 16) * 4 + b2 / 64)) % 4) * 64 + b64Val (b64Char (b2 % 64))] ++
      base64DecodeGroups (List.filter isB64Char (base64Encode rest)) =
      b0 :: b1 :: b2 :: rest
    rw [b64Val_b64Char _ h1, b64Val_b64Char _ h2, b64Val_b64Char _ h3, b64Val_b64Char _ h4,
      ih]
    have e1 : b0 / 4 * 4 + ((b0 % 4) * 16 + b1 / 16) / 16 = b0 := by omega
    have e2 : ((b0 % 4) * 16 + b1 / 16) % 16 * 16 + ((b1 % 16) * 4 + b2 / 64) / 4 = b1 := by
      omega
    have e3 : ((b1 % 16) * 4 + b2 / 64) % 4 * 64 + b2 % 64 = b2 := by omega
    rw [e1, e2, e3]
    rfl

lemma inflate_deflate_go : ∀ (fd : Nat) (bs : List Nat), bs.length + 1 ≤ fd →
    ∀ (fi : Nat), (deflateRawGo fd bs).length + 1 ≤ fi →
      inflateRawGo fi (deflateRawGo fd bs) = Except.ok bs := by
  intro fd
  induction fd with
  | zero => intro bs h; omega
  | succ fd ih =>
    intro bs hlen fi hfi
    by_cases hle : bs.length ≤ 65535
    · have hD : deflateRawGo (fd + 1) bs =
          1 :: bs.length % 256 :: bs.length / 256 ::
            (65535 - bs.length) % 256 :: (65535 - bs.length) / 256 :: bs := by
        simp only [deflateRawGo, if_pos hle]
      rw [hD] at hfi ⊢
      simp only [List.length_cons] at hfi
      obtain ⟨fi2, rfl⟩ : ∃ fi2, fi = fi2 + 1 := ⟨fi - 1, by omega⟩
      simp only [inflateRawGo]
      rw [if_neg (show ¬(1 / 2 % 4 ≠ 0) by omega)]
      rw [if_neg (show ¬(bs.length % 256 + 256 * (bs.length / 256) +
        ((65535 - bs.length) % 256 + 256 * ((65535 - bs.length) / 256)) ≠ 65535) by omega)]
      rw [if_neg (show ¬(bs.length < bs.length % 256 + 256 * (bs.length / 256)) by omega)]
      rw [if_pos trivial]
      rw [show bs.length % 256 + 256 * (bs.length / 256) = bs.length from by omega]
      rw [List.take_length]
    · have hD : deflateRawGo (fd + 1) bs =
          0 :: 255 :: 255 :: 0 :: 0 ::
            (bs.take 65535 ++ deflateRawGo fd (bs.drop 65535)) := by
        simp only [deflateRawGo, if_neg hle]
      have htklen : (bs.take 65535).length = 65535 := by
        rw [List.length_take]
        omega
      rw [hD] at hfi ⊢
      simp only [List.length_cons, List.length_append, htklen] at hfi
      obtain ⟨fi2, rfl⟩ : ∃ fi2, fi = fi2 + 1 := ⟨fi - 1, by omega⟩
      simp only [inflateRawGo]
      rw [if_neg (by omega)]
      rw [if_neg (by omega)]
      rw [if_neg (by
        simp only [List.length_append, htklen]
        omega)]
      rw [if_neg (by omega)]
      have hdrop : (bs.take 65535 ++ deflateRawGo fd (bs.drop 65535)).drop
          (255 + 256 * 255) = deflateRawGo fd (bs.drop 65535) := by
        rw [show 255 + 256 * 255 = (bs.take 65535).length from by omega]
        exact List.drop_left _ _
      have htake : (bs.take 65535 ++ deflateRawGo fd (bs.drop 65535)).take
          (255 + 256 * 255) = bs.take 65535 := by
        rw [show 255 + 256 * 255 = (bs.take 65535).length from by omega]
        exact List.take_left _ _
      rw [hdrop, htake]
      rw [ih (bs.drop 65535) (by simp only [List.length_drop]; omega) fi2 (by omega)]
      simp only
      rw [List.take_append_drop]

lemma inflate_deflate (bs : List Nat) : inflateRaw (deflateRaw bs) = Except.ok bs := by
  unfold inflateRaw deflateRaw
  exact inflate_deflate_go (bs.length + 1) bs (by omega) _ (by omega)

lemma deflateRawGo_bytes : ∀ (fd : Nat) (bs : List Nat), (∀ b ∈ bs, b < 256) →
    ∀ b ∈ deflateRawGo fd bs, b < 256 := by
  intro fd
  induction fd with
  | zero => intro bs _ b hb; simp [deflateRawGo] at hb
  | succ fd ih =>
    intro bs hbs b hb
    by_cases hle : bs.length ≤ 65535
    · rw [show deflateRawGo (fd + 1) bs =
          1 :: bs.length % 256 :: bs.length / 256 ::
            (65535 - bs.length) % 256 :: (65535 - bs.length) / 256 :: bs from by
        simp only [deflateRawGo, if_pos hle]] at hb
      simp only [List.mem_cons] at hb
      rcases hb with rfl | rfl | rfl | rfl | rfl | hb
      · omega
      · omega
      · omega
      · omega
      · omega
      · exact hbs b hb
    · rw [show deflateRawGo (fd + 1) bs =
          0 :: 255 :: 255 :: 0 :: 0 ::
            (bs.take 65535 ++ deflateRawGo fd (bs.drop 65535)) from by
        simp only [deflateRawGo, if_neg hle]] at hb
      simp only [List.mem_cons, List.mem_append] at hb
      rcases hb with rfl | rfl | rfl | rfl | rfl | hb | hb
      · omega
      · omega
      · omega
      · omega
      · omega
      · exact hbs b (List.mem_of_mem_take hb)
      · exact ih (bs.drop 65535) (fun b2 hb2 => hbs b2 (List.mem_of_mem_drop hb2)) b hb

lemma utf8EncodeChar_lt (c : Char) : ∀ b ∈ utf8EncodeChar c, b < 256 := by
  have hv : c.toNat < 0x110000 := by
    have hvalid := c.valid
    unfold UInt32.isValidChar Nat.isValidChar at hvalid
    have heq : c.toNat = c.val.toNat := rfl
    omega
  intro b hb
  unfold utf8EncodeChar at hb
  dsimp only at hb
  split_ifs at hb with h1 h2 h3
  · simp only [List.mem_singleton] at hb
    omega
  · simp only [List.mem_cons, List.not_mem_nil, or_false] at hb
    rcases hb with rfl | rfl <;> omega
  · simp only [List.mem_cons, List.not_mem_nil, or_false] at hb
    rcases hb with rfl | rfl | rfl <;> omega
  · simp only [List.mem_cons, List.not_mem_nil, or_false] at hb
    rcases hb with rfl | rfl | rfl | rfl <;> omega

lemma utf8Encode_cons (c : Char) (cs : List Char) :
    utf8Encode (c :: cs) = utf8EncodeChar c ++ utf8Encode cs := rfl

lemma utf8Encode_lt (l : List Char) : ∀ b ∈ utf8Encode l, b < 256 := by
  induction l with
  | nil => intro b hb; simp [utf8Encode] at hb
  | cons c cs ih =>
    intro b hb
    rw [utf8Encode_cons] at hb
    rcases List.mem_append.mp hb with h | h
    · exact utf8EncodeChar_lt c b h
    · exact ih b h

lemma alphabet_not_ws : ∀ c ∈ base64Alphabet, isJsWhitespace c = false := by decide

lemma b64Char_mem_alphabet (n : Nat) : b64Char n ∈ base64Alphabet := by
  unfold b64Char List.getD
  cases hg : base64Alphabet.get? n with
  | none => simp only [Option.getD_none]; decide
  | some c =>
    simp only [Option.getD_some]
    exact List.get?_mem hg

theorem base64Encode_not_ws : (bs : List Nat) → ∀ c ∈ base64Encode bs,
    isJsWhitespace c = false
  | [], c, hc => by simp [base64Encode] at hc
  | [b0], c, hc => by
    simp only [base64Encode, List.mem_cons, List.not_mem_nil, or_false] at hc
    rcases hc with rfl | rfl | rfl | rfl
    · exact alphabet_not_ws _ (b64Char_mem_alphabet _)
    · exact alphabet_not_ws _ (b64Char_mem_alphabet _)
    · decide
    · decide
  | [b0, b1], c, hc => by
    simp only [base64Encode, List.mem_cons, List.not_mem_nil, or_false] at hc
    rcases hc with rfl | rfl | rfl | rfl
    · exact alphabet_not_ws _ (b64Char_mem_alphabet _)
    · exact alphabet_not_ws _ (b64Char_mem_alphabet _)
    · exact alphabet_not_ws _ (b64Char_mem_alphabet _)
    · decide
  | b0 :: b1 :: b2 :: rest, c, hc => by
    show isJsWhitespace c = false
    rw [show base64Encode (b0 :: b1 :: b2 :: rest) =
        [b64Char (b0 / 4), b64Char ((b0 % 4) * 16 + b1 / 16),
          b64Char ((b1 % 16) * 4 + b2 / 64), b64Char (b2 % 64)] ++ base64Encode rest
        from rfl] at hc
    rcases List.mem_append.mp hc with h | h
    · simp only [List.mem_cons, List.not_mem_nil, or_false] at h
      rcases h with rfl | rfl | rfl | rfl <;>
        exact alphabet_not_ws _ (b64Char_mem_alphabet _)
    · exact base64Encode_not_ws rest c h

lemma dropWhile_eq_self_of (p : Char → Bool) (l : List Char)
    (h : ∀ c ∈ l, p c = false) : l.dropWhile p = l := by
  cases l with
  | nil => rfl
  | cons a rest =>
    rw [List.dropWhile_cons, if_neg (by simp [h a (List.mem_cons_self _ _)])]

lemma trimStr_of_not_ws (l : List Char) (h : ∀ c ∈ l, isJsWhitespace c = false) :
    trimStr (String.mk l) = String.mk l := by
  unfold trimStr
  show String.mk (((l.dropWhile isJsWhitespace).reverse.dropWhile isJsWhitespace).reverse) =
    String.mk l
  rw [dropWhile_eq_self_of _ _ h,
    dropWhile_eq_self_of _ _ (fun c hc => h c (List.mem_reverse.mp hc)),
    List.reverse_reverse]

lemma isCont_true (b : Nat) (h1 : 0x80 ≤ b) (h2 : b < 0xC0) : isCont b = true := by
  simp only [isCont, Bool.and_eq_true, decide_eq_true_eq]
  exact ⟨h1, h2⟩

lemma utf8Go_nil (f : Nat) : utf8DecodeLossyGo f [] = [] := by
  cases f <;> rfl

lemma utf8Go_irrel : ∀ (n f1 f2 : Nat) (l : List Nat), l.length ≤ n →
    l.length ≤ f1 → l.length ≤ f2 →
    utf8DecodeLossyGo f1 l = utf8DecodeLossyGo f2 l := by
  intro n
  induction n with
  | zero =>
    intro f1 f2 l hn _ _
    have : l = [] := List.length_eq_zero.mp (by omega)
    subst this
    rw [utf8Go_nil, utf8Go_nil]
  | succ n ih =>
    intro f1 f2 l hn h1 h2
    cases l with
    | nil => rw [utf8Go_nil, utf8Go_nil]
    | cons b rest =>
      simp only [List.length_cons] at hn h1 h2
      cases f1 with
      | zero => omega
      | succ g1 =>
        cases f2 with
        | zero => omega
        | succ g2 =>
          simp only [utf8DecodeLossyGo]
          unfold utf8Step
          split_ifs with hb1 hb2 hb3 hb4
          · rw [ih g1 g2 rest (by omega) (by omega) (by omega)]
          · rw [ih g1 g2 rest (by omega) (by omega) (by omega)]
          · cases rest with
            | nil => rfl
            | cons b1 rest2 =>
              simp only [List.length_cons] at hn h1 h2
              dsimp only
              split_ifs with hc
              · rw [ih g1 g2 rest2 (by omega) (by omega) (by omega)]
              · rw [ih g1 g2 rest2 (by omega) (by omega) (by omega)]
          · cases rest with
            | nil => rfl
            | cons b1 rest1 =>
              cases rest1 with
              | nil => rfl
              | cons b2 rest2 =>
                simp only [List.length_cons] at hn h1 h2
                dsimp only
                split_ifs with hc
                · rw [ih g1 g2 rest2 (by omega) (by omega) (by omega)]
                · rw [ih g1 g2 rest2 (by omega) (by omega) (by omega)]
          · cases rest with
            | nil => rfl
            | cons b1 rest1 =>
              cases rest1 with
              | nil => rfl
              | cons b2 rest1' =>
                cases rest1' with
                | nil => rfl
                | cons b3 rest2 =>
                  simp only [List.length_cons] at hn h1 h2
                  dsimp only
                  split_ifs with hc
                  · rw [ih g1 g2 rest2 (by omega) (by omega) (by omega)]
                  · rw [ih g1 g2 rest2 (by omega) (by omega) (by omega)]

lemma utf8_decode_encode_char (c : Char) (rest : List Nat) :
    utf8DecodeLossy (utf8EncodeChar c ++ rest) = c :: utf8DecodeLossy rest := by
  have hval := c.valid
  unfold UInt32.isValidChar Nat.isValidChar at hval
  have heq : c.toNat = c.val.toNat := rfl
  have hv : c.toNat < 0x110000 := by omega
  by_cases h1 : c.toNat < 0x80
  · rw [show utf8EncodeChar c = [c.toNat] from by
      unfold utf8EncodeChar; dsimp only; rw [if_pos h1]]
    show utf8DecodeLossyGo (rest.length + 1) (c.toNat :: rest) =
      c :: utf8DecodeLossyGo rest.length rest
    simp only [utf8DecodeLossyGo]
    unfold utf8Step
    rw [if_pos h1, Char.ofNat_toNat]
  · by_cases h2 : c.toNat < 0x800
    · rw [show utf8EncodeChar c = [0xC0 + c.toNat / 64, 0x80 + c.toNat % 64] from by
        unfold utf8EncodeChar; dsimp only; rw [if_neg h1, if_pos h2]]
      show utf8DecodeLossyGo (rest.length + 1 + 1)
        ((0xC0 + c.toNat / 64) :: (0x80 + c.toNat % 64) :: rest) =
        c :: utf8DecodeLossyGo rest.length rest
      simp only [utf8DecodeLossyGo]
      unfold utf8Step
      rw [if_neg (show ¬(0xC0 + c.toNat / 64 < 0x80) by omega)]
      rw [if_neg (show ¬(0xC0 + c.toNat / 64 < 0xC0) by omega)]
      rw [if_pos (show 0xC0 + c.toNat / 64 < 0xE0 by omega)]
      dsimp only
      rw [if_pos (isCont_true _ (by omega) (by omega))]
      rw [show (0xC0 + c.toNat / 64 - 0xC0) * 64 + (0x80 + c.toNat % 64 - 0x80) = c.toNat
        from by omega]
      rw [Char.ofNat_toNat,
        utf8Go_irrel (rest.length + 1) (rest.length + 1) rest.length rest
          (by omega) (by omega) (by omega)]
    · by_cases h3 : c.toNat < 0x10000
      · rw [show utf8EncodeChar c = [0xE0 + c.toNat / 4096, 0x80 + c.toNat / 64 % 64,
            0x80 + c.toNat % 64] from by
          unfold utf8EncodeChar; dsimp only; rw [if_neg h1, if_neg h2, if_pos h3]]
        show utf8DecodeLossyGo (rest.length + 1 + 1 + 1)
          ((0xE0 + c.toNat / 4096) :: (0x80 + c.toNat / 64 % 64) ::
            (0x80 + c.toNat % 64) :: rest) =
          c :: utf8DecodeLossyGo rest.length rest
        simp only [utf8DecodeLossyGo]
        unfold utf8Step
        rw [if_neg (show ¬(0xE0 + c.toNat / 4096 < 0x80) by omega)]
        rw [if_neg (show ¬(0xE0 + c.toNat / 4096 < 0xC0) by omega)]
        rw [if_neg (show ¬(0xE0 + c.toNat / 4096 < 0xE0) by omega)]
        rw [if_pos (show 0xE0 + c.toNat / 4096 < 0xF0 by omega)]
        dsimp only
        rw [if_pos (show (isCont (0x80 + c.toNat / 64 % 64) &&
            isCont (0x80 + c.toNat % 64)) = true from by
          rw [isCont_true _ (by omega) (by omega), isCont_true _ (by omega) (by omega)]
          rfl)]
        rw [show (0xE0 + c.toNat / 4096 - 0xE0) * 4096 +
            (0x80 + c.toNat / 64 % 64 - 0x80) * 64 + (0x80 + c.toNat % 64 - 0x80) = c.toNat
          from by omega]
        rw [Char.ofNat_toNat,
          utf8Go_irrel (rest.length + 1 + 1) (rest.length + 1 + 1) rest.length rest
            (by omega) (by omega) (by omega)]
      · rw [show utf8EncodeChar c = [0xF0 + c.toNat / 262144, 0x80 + c.toNat / 4096 % 64,
            0x80 + c.toNat / 64 % 64, 0x80 + c.toNat % 64] from by
          unfold utf8EncodeChar; dsimp only; rw [if_neg h1, if_neg h2, if_neg h3]]
        show utf8DecodeLossyGo (rest.length + 1 + 1 + 1 + 1)
          ((0xF0 + c.toNat / 262144) :: (0x80 + c.toNat / 4096 % 64) ::
            (0x80 + c.toNat / 64 % 64) :: (0x80 + c.toNat % 64) :: rest) =
          c :: utf8DecodeLossyGo rest.length rest
        simp only [utf8DecodeLossyGo]
        unfold utf8Step
        rw [if_neg (show ¬(0xF0 + c.toNat / 262144 < 0x80) by omega)]
        rw [if_neg (show ¬(0xF0 + c.toNat / 262144 < 0xC0) by omega)]
        rw [if_neg (show ¬(0xF0 + c.toNat / 262144 < 0xE0) by omega)]
        rw [if_neg (show ¬(0xF0 + c.toNat / 262144 < 0xF0) by omega)]
        dsimp only
        rw [if_pos (show (decide (0xF0 + c.toNat / 262144 < 0xF8) &&
            isCont (0x80 + c.toNat / 4096 % 64) && isCont (0x80 + c.toNat / 64 % 64) &&
            isCont (0x80 + c.toNat % 64)) = true from by
          rw [isCont_true _ (by omega) (by omega), isCont_true _ (by omega) (by omega),
            isCont_true _ (by omega) (by omega),
            decide_eq_true (show 0xF0 + c.toNat / 262144 < 0xF8 by omega)]
          rfl)]
        rw [show (0xF0 + c.toNat / 262144 - 0xF0) * 262144 +
            (0x80 + c.toNat / 4096 % 64 - 0x80) * 4096 +
            (0x80 + c.toNat / 64 % 64 - 0x80) * 64 + (0x80 + c.toNat % 64 - 0x80) = c.toNat
          from by omega]
        rw [Char.ofNat_toNat,
          utf8Go_irrel (rest.length + 1 + 1 + 1) (rest.length + 1 + 1 + 1) rest.length
            rest (by omega) (by omega) (by omega)]

lemma utf8_roundtrip (l : List Char) : utf8DecodeLossy (utf8Encode l) = l := by
  induction l with
  | nil => rfl
  | cons c cs ih =>
    rw [utf8Encode_cons, utf8_decode_encode_char, ih]

lemma encodeURIComponent_cons (c : Char) (cs : List Char) :
    encodeURIComponent (c :: cs) = uriEncodeChar c ++ encodeURIComponent cs := rfl

lemma uriGo_nil (f : Nat) : decodeURIComponentGo f [] = some [] := by
  cases f <;> rfl

lemma hexVal_hexDigitUpper : ∀ n, n < 16 → hexVal (hexDigitUpper n) = some n := by
  decide

lemma not_percent_of_unreserved (c : Char) (h : isUnreservedURI c = true) :
    ¬(c = '%') := by
  intro hc
  subst hc
  exact absurd h (by decide)

lemma uriGo_char (c : Char) (tail : List Char) (f : Nat) :
    decodeURIComponentGo (f + 1) (uriEncodeChar c ++ tail) =
      (decodeURIComponentGo f tail).map (c :: ·) := by
  have hval := c.valid
  unfold UInt32.isValidChar Nat.isValidChar at hval
  have heq : c.toNat = c.val.toNat := rfl
  have hv : c.toNat < 0x110000 := by omega
  by_cases hu : isUnreservedURI c
  · rw [show uriEncodeChar c = [c] from by unfold uriEncodeChar; rw [if_pos hu]]
    show decodeURIComponentGo (f + 1) (c :: tail) = _
    simp only [decodeURIComponentGo]
    unfold uriStep
    rw [if_neg (not_percent_of_unreserved c hu)]
  · by_cases h1 : c.toNat < 0x80
    · rw [show uriEncodeChar c =
          ['%', hexDigitUpper (c.toNat / 16), hexDigitUpper (c.toNat % 16)] from by
        unfold uriEncodeChar
        rw [if_neg hu, show utf8EncodeChar c = [c.toNat] from by
          unfold utf8EncodeChar; dsimp only; rw [if_pos h1]]
        rfl]
      show decodeURIComponentGo (f + 1)
        ('%' :: hexDigitUpper (c.toNat / 16) :: hexDigitUpper (c.toNat % 16) :: tail) = _
      simp only [decodeURIComponentGo]
      unfold uriStep
      rw [if_pos rfl]
      dsimp only
      rw [hexVal_hexDigitUpper (c.toNat / 16) (by omega),
        hexVal_hexDigitUpper (c.toNat % 16) (by omega)]
      dsimp only
      rw [show c.toNat / 16 * 16 + c.toNat % 16 = c.toNat from by omega]
      rw [if_pos h1, Char.ofNat_toNat]
    · by_cases h2 : c.toNat < 0x800
      · rw [show uriEncodeChar c =
            ['%', hexDigitUpper ((0xC0 + c.toNat / 64) / 16),
             hexDigitUpper ((0xC0 + c.toNat / 64) % 16),
             '%', hexDigitUpper ((0x80 + c.toNat % 64) / 16),
             hexDigitUpper ((0x80 + c.toNat % 64) % 16)] from by
          unfold uriEncodeChar
          rw [if_neg hu, show utf8EncodeChar c =
              [0xC0 + c.toNat / 64, 0x80 + c.toNat % 64] from by
            unfold utf8EncodeChar; dsimp only; rw [if_neg h1, if_pos h2]]
          rfl]
        show decodeURIComponentGo (f + 1)
          ('%' :: hexDigitUpper ((0xC0 + c.toNat / 64) / 16) ::
           hexDigitUpper ((0xC0 + c.toNat / 64) % 16) ::
           '%' :: hexDigitUpper ((0x80 + c.toNat % 64) / 16) ::
           hexDigitUpper ((0x80 + c.toNat % 64) % 16) :: tail) = _
        simp only [decodeURIComponentGo]
        unfold uriStep
        rw [if_pos rfl]
        dsimp only
        rw [hexVal_hexDigitUpper ((0xC0 + c.toNat / 64) / 16) (by omega),
          hexVal_hexDigitUpper ((0xC0 + c.toNat / 64) % 16) (by omega)]
        dsimp only
        rw [show (0xC0 + c.toNat / 64) / 16 * 16 + (0xC0 + c.toNat / 64) % 16 =
            0xC0 + c.toNat / 64 from by omega]
        rw [if_neg (show ¬(0xC0 + c.toNat / 64 < 0x80) by omega)]
        rw [if_neg (show ¬(0xC0 + c.toNat / 64 < 0xC0) by omega)]
        rw [if_pos (show 0xC0 + c.toNat / 64 < 0xE0 by omega)]
        rw [if_pos rfl]
        rw [hexVal_hexDigitUpper ((0x80 + c.toNat % 64) / 16) (by omega),
          hexVal_hexDigitUpper ((0x80 + c.toNat % 64) % 16) (by omega)]
        dsimp only
        rw [show (0x80 + c.toNat % 64) / 16 * 16 + (0x80 + c.toNat % 64) % 16 =
            0x80 + c.toNat % 64 from by omega]
        rw [show (0xC0 + c.toNat / 64 - 0xC0) * 64 + (0x80 + c.toNat % 64 - 0x80) =
            c.toNat from by omega]
        rw [if_pos (show (isCont (0x80 + c.toNat % 64) &&
            decide (0x80 ≤ c.toNat)) = true from by
          rw [isCont_true _ (by omega) (by omega),
            decide_eq_true (show 0x80 ≤ c.toNat by omega)]
          rfl)]
        rw [Char.ofNat_toNat]
      · by_cases h3 : c.toNat < 0x10000
        · rw [show uriEncodeChar c =
              ['%', hexDigitUpper ((0xE0 + c.toNat / 4096) / 16),
               hexDigitUpper ((0xE0 + c.toNat / 4096) % 16),
               '%', hexDigitUpper ((0x80 + c.toNat / 64 % 64) / 16),
               hexDigitUpper ((0x80 + c.toNat / 64 % 64) % 16),
               '%', hexDigitUpper ((0x80 + c.toNat % 64) / 16),
               hexDigitUpper ((0x80 + c.toNat % 64) % 16)] from by
            unfold uriEncodeChar
            rw [if_neg hu, show utf8EncodeChar c =
                [0xE0 + c.toNat / 4096, 0x80 + c.toNat / 64 % 64,
                 0x80 + c.toNat % 64] from by
              unfold utf8EncodeChar; dsimp only; rw [if_neg h1, if_neg h2, if_pos h3]]
            rfl]
          show decodeURIComponentGo (f + 1)
            ('%' :: hexDigitUpper ((0xE0 + c.toNat / 4096) / 16) ::
             hexDigitUpper ((0xE0 + c.toNat / 4096) % 16) ::
             '%' :: hexDigitUpper ((0x80 + c.toNat / 64 % 64) / 16) ::
             hexDigitUpper ((0x80 + c.toNat / 64 % 64) % 16) ::
             '%' :: hexDigitUpper ((0x80 + c.toNat % 64) / 16) ::
             hexDigitUpper ((0x80 + c.toNat % 64) % 16) :: tail) = _
          simp only [decodeURIComponentGo]
          unfold uriStep
          rw [if_pos rfl]
          dsimp only
          rw [hexVal_hexDigitUpper ((0xE0 + c.toNat / 4096) / 16) (by omega),
            hexVal_hexDigitUpper ((0xE0 + c.toNat / 4096) % 16) (by omega)]
          dsimp only
          rw [show (0xE0 + c.toNat / 4096) / 16 * 16 + (0xE0 + c.toNat / 4096) % 16 =
              0xE0 + c.toNat / 4096 from by omega]
          rw [if_neg (show ¬(0xE0 + c.toNat / 4096 < 0x80) by omega)]
          rw [if_neg (show ¬(0xE0 + c.toNat / 4096 < 0xC0) by omega)]
          rw [if_neg (show ¬(0xE0 + c.toNat / 4096 < 0xE0) by omega)]
          rw [if_pos (show 0xE0 + c.toNat / 4096 < 0xF0 by omega)]
          rw [if_pos (show ('%' : Char) = '%' ∧ ('%' : Char) = '%' from ⟨rfl, rfl⟩)]
          rw [hexVal_hexDigitUpper ((0x80 + c.toNat / 64 % 64) / 16) (by omega),
            hexVal_hexDigitUpper ((0x80 + c.toNat / 64 % 64) % 16) (by omega),
            hexVal_hexDigitUpper ((0x80 + c.toNat % 64) / 16) (by omega),
            hexVal_hexDigitUpper ((0x80 + c.toNat % 64) % 16) (by omega)]
          dsimp only
          rw [show (0x80 + c.toNat / 64 % 64) / 16 * 16 +
              (0x80 + c.toNat / 64 % 64) % 16 = 0x80 + c.toNat / 64 % 64 from by omega]
          rw [show (0x80 + c.toNat % 64) / 16 * 16 + (0x80 + c.toNat % 64) % 16 =
              0x80 + c.toNat % 64 from by omega]
          rw [show (0xE0 + c.toNat / 4096 - 0xE0) * 4096 +
              (0x80 + c.toNat / 64 % 64 - 0x80) * 64 + (0x80 + c.toNat % 64 - 0x80) =
              c.toNat from by omega]
          have hsur : (decide (0xD800 ≤ c.toNat) && decide (c.toNat < 0xE000)) =
              false := by
            rcases Nat.lt_or_ge c.toNat 0xD800 with hlt | hge
            · rw [decide_eq_false (show ¬(0xD800 ≤ c.toNat) by omega)]
              rfl
            · rw [decide_eq_false (show ¬(c.toNat < 0xE000) by omega), Bool.and_false]
          rw [if_pos (show (isCont (0x80 + c.toNat / 64 % 64) &&
              isCont (0x80 + c.toNat % 64) && decide (0x800 ≤ c.toNat) &&
              !(decide (0xD800 ≤ c.toNat) && decide (c.toNat < 0xE000))) = true from by
            rw [isCont_true _ (by omega) (by omega), isCont_true _ (by omega) (by omega),
              decide_eq_true (show 0x800 ≤ c.toNat by omega), hsur]
            rfl)]
          rw [Char.ofNat_toNat]
        · rw [show uriEncodeChar c =
              ['%', hexDigitUpper ((0xF0 + c.toNat / 262144) / 16),
               hexDigitUpper ((0xF0 + c.toNat / 262144) % 16),
               '%', hexDigitUpper ((0x80 + c.toNat / 4096 % 64) / 16),
               hexDigitUpper ((0x80 + c.toNat / 4096 % 64) % 16),
               '%', hexDigitUpper ((0x80 + c.toNat / 64 % 64) / 16),
               hexDigitUpper ((0x80 + c.toNat / 64 % 64) % 16),
               '%', hexDigitUpper ((0x80 + c.toNat % 64) / 16),
               hexDigitUpper ((0x80 + c.toNat % 64) % 16)] from by
            unfold uriEncodeChar
            rw [if_neg hu, show utf8EncodeChar c =
                [0xF0 + c.toNat / 262144, 0x80 + c.toNat / 4096 % 64,
                 0x80 + c.toNat / 64 % 64, 0x80 + c.toNat % 64] from by
              unfold utf8EncodeChar; dsimp only; rw [if_neg h1, if_neg h2, if_neg h3]]
            rfl]
          show decodeURIComponentGo (f + 1)
            ('%' :: hexDigitUpper ((0xF0 + c.toNat / 262144) / 16) ::
             hexDigitUpper ((0xF0 + c.toNat / 262144) % 16) ::
             '%' :: hexDigitUpper ((0x80 + c.toNat / 4096 % 64) / 16) ::
             hexDigitUpper ((0x80 + c.toNat / 4096 % 64) % 16) ::
             '%' :: hexDigitUpper ((0x80 + c.toNat / 64 % 64) / 16) ::
             hexDigitUpper ((0x80 + c.toNat / 64 % 64) % 16) ::
             '%' :: hexDigitUpper ((0x80 + c.toNat % 64) / 16) ::
             hexDigitUpper ((0x80 + c.toNat % 64) % 16) :: tail) = _
          simp only [decodeURIComponentGo]
          unfold uriStep
          rw [if_pos rfl]
          dsimp only
          rw [hexVal_hexDigitUpper ((0xF0 + c.toNat / 262144) / 16) (by omega),
            hexVal_hexDigitUpper ((0xF0 + c.toNat / 262144) % 16) (by omega)]
          dsimp only
          rw [show (0xF0 + c.toNat / 262144) / 16 * 16 +
              (0xF0 + c.toNat / 262144) % 16 = 0xF0 + c.toNat / 262144 from by omega]
          rw [if_neg (show ¬(0xF0 + c.toNat / 262144 < 0x80) by omega)]
          rw [if_neg (show ¬(0xF0 + c.toNat / 262144 < 0xC0) by omega)]
          rw [if_neg (show ¬(0xF0 + c.toNat / 262144 < 0xE0) by omega)]
          rw [if_neg (show ¬(0xF0 + c.toNat / 262144 < 0xF0) by omega)]
          rw [if_pos (show 0xF0 + c.toNat / 262144 < 0xF8 by omega)]
          rw [if_pos (show ('%' : Char) = '%' ∧ ('%' : Char) = '%' ∧ ('%' : Char) = '%'
            from ⟨rfl, rfl, rfl⟩)]
          rw [hexVal_hexDigitUpper ((0x80 + c.toNat / 4096 % 64) / 16) (by omega),
            hexVal_hexDigitUpper ((0x80 + c.toNat / 4096 % 64) % 16) (by omega),
            hexVal_hexDigitUpper ((0x80 + c.toNat / 64 % 64) / 16) (by omega),
            hexVal_hexDigitUpper ((0x80 + c.toNat / 64 % 64) % 16) (by omega),
            hexVal_hexDigitUpper ((0x80 + c.toNat % 64) / 16) (by omega),
            hexVal_hexDigitUpper ((0x80 + c.toNat % 64) % 16) (by omega)]
          dsimp only
          rw [show (0x80 + c.toNat / 4096 % 64) / 16 * 16 +
              (0x80 + c.toNat / 4096 % 64) % 16 = 0x80 + c.toNat / 4096 % 64 from by
            omega]
          rw [show (0x80 + c.toNat / 64 % 64) / 16 * 16 +
              (0x80 + c.toNat / 64 % 64) % 16 = 0x80 + c.toNat / 64 % 64 from by omega]
          rw [show (0x80 + c.toNat % 64) / 16 * 16 + (0x80 + c.toNat % 64) % 16 =
              0x80 + c.toNat % 64 from by omega]
          rw [show (0xF0 + c.toNat / 262144 - 0xF0) * 262144 +
              (0x80 + c.toNat / 4096 % 64 - 0x80) * 4096 +
              (0x80 + c.toNat / 64 % 64 - 0x80) * 64 + (0x80 + c.toNat % 64 - 0x80) =
              c.toNat from by omega]
          rw [if_pos (show (isCont (0x80 + c.toNat / 4096 % 64) &&
              isCont (0x80 + c.toNat / 64 % 64) && isCont (0x80 + c.toNat % 64) &&
              decide (0x10000 ≤ c.toNat) && decide (c.toNat < 0x110000)) = true from by
            rw [isCont_true _ (by omega) (by omega), isCont_true _ (by omega) (by omega),
              isCont_true _ (by omega) (by omega),
              decide_eq_true (show 0x10000 ≤ c.toNat by omega),
              decide_eq_true (show c.toNat < 0x110000 by omega)]
            rfl)]
          rw [Char.ofNat_toNat]

lemma uriGo_run : ∀ (l : List Char) (f : Nat), l.length ≤ f →
    decodeURIComponentGo f (encodeURIComponent l) = some l := by
  intro l
  induction l with
  | nil => intro f _; exact uriGo_nil f
  | cons c cs ih =>
    intro f hf
    simp only [List.length_cons] at hf
    cases f with
    | zero => omega
    | succ g =>
      rw [encodeURIComponent_cons, uriGo_char, ih g (by omega)]
      rfl

lemma uriEncodeChar_length_pos (c : Char) : 1 ≤ (uriEncodeChar c).length := by
  have hval := c.valid
  unfold UInt32.isValidChar Nat.isValidChar at hval
  have heq : c.toNat = c.val.toNat := rfl
  unfold uriEncodeChar
  split_ifs with hu
  · exact le_refl 1
  · unfold utf8EncodeChar
    dsimp only
    split_ifs <;> simp [percentByte]

lemma encodeURIComponent_length (l : List Char) :
    l.length ≤ (encodeURIComponent l).length := by
  induction l with
  | nil => exact le_refl 0
  | cons c cs ih =>
    rw [encodeURIComponent_cons]
    simp only [List.length_append, List.length_cons]
    have := uriEncodeChar_length_pos c
    omega

theorem percent_roundtrip (l : List Char) :
    decodeURIComponent (encodeURIComponent l) = some l := by
  show decodeURIComponentGo (encodeURIComponent l).length (encodeURIComponent l) = some l
  exact uriGo_run l _ (encodeURIComponent_length l)

/-- C9: for every markup string, applying the matching compression
procedure (percent-encode, UTF-8 encode, raw-deflate, base64 — modelled
with stored deflate blocks) and then the decompressor yields the original
string: the decompression pipeline inverts the compression pipeline
exactly. -/
theorem compression_roundtrip (s : String) :
    decodeDrawio (compressDrawio s) = Except.ok s := by
  obtain ⟨d⟩ := s
  show decodeDrawio (String.mk (base64Encode (deflateRaw (utf8Encode
    (encodeURIComponent d))))) = Except.ok (String.mk d)
  unfold decodeDrawio
  dsimp only
  rw [trimStr_of_not_ws _ (base64Encode_not_ws _)]
  rw [show (String.mk (base64Encode (deflateRaw (utf8Encode
    (encodeURIComponent d))))).data = base64Encode (deflateRaw (utf8Encode
    (encodeURIComponent d))) from rfl]
  rw [show base64DecodeLenient (base64Encode (deflateRaw (utf8Encode
      (encodeURIComponent d)))) = deflateRaw (utf8Encode (encodeURIComponent d)) from
    base64_roundtrip _ (fun b hb => deflateRawGo_bytes _ _ (utf8Encode_lt _) b hb)]
  rw [inflate_deflate]
  dsimp only
  rw [utf8_roundtrip, percent_roundtrip]

